import Mathlib

/-!
Verification of the concat/split operators of `caffe2/operators/concat_split_op.h`.

The operators are embedded shallowly: tensors are shapes (lists of extents)
together with a flat row-major element buffer and an element-type tag; the
type-erased strided matrix copy `math::CopyMatrix` is modelled as a pure
function on element lists (the item size is one element unit, so byte offsets
of the C++ code become element offsets here).
-/

namespace ConcatSplit

/-- Error kinds of the operators, following the specification's names for the
run-time enforcement failures of the C++ code (`CAFFE_ENFORCE*` sites). -/
inductive Err where
  | conflictingConfiguration
  | unsupportedOrder
  | axisOutOfRange
  | sizeMismatch
  | indivisibleSplit
  | shapeSumMismatch
  | typeMismatch (inputIdx : Nat)
  | shapeMismatch (expected got atDim inputIdx : Nat)
      (shapeZero shapeJ : List Nat)
  deriving Repr, DecidableEq

/-- A tensor: a shape (list of non-negative extents), a flat row-major buffer
of elements, and an element-type tag.  Invariant (maintained externally):
`data.length = dims.prod`. -/
structure Tensor where
  dims : List Nat
  data : List Int
  dtype : Nat
  deriving Repr, DecidableEq

def Tensor.ndim (t : Tensor) : Nat := t.dims.length

def Tensor.numel (t : Tensor) : Nat := t.dims.prod

def Tensor.dim32 (t : Tensor) (i : Nat) : Nat := t.dims.getD i 0

/-- The element-type tag used for the `int` side outputs (`mutable_data<int>`). -/
def int32Dtype : Nat := 0

/-- The pure value of axis resolution: a non-negative raw axis stands for
itself, a negative one for `rank + rawAxis`. -/
def resolveAxis (rank : Nat) (axis : Int) : Int :=
  if 0 ≤ axis then axis else (rank : Int) + axis

/-- Modelled from the spec: the axis resolver `canonical_axis_index_` (declared
in the operator core, outside this excerpt).  `resolve(rank, rawAxis)` is
`rawAxis` when non-negative and `rank + rawAxis` when negative, and the
invocation fails with `AxisOutOfRange` when the resolved axis is not in
`[0, rank)` for the rank the caller passes. -/
def canonical_axis_index_ (axis : Int) (rank : Nat) : Except Err Nat :=
  let c := resolveAxis rank axis
  if 0 ≤ c ∧ c < (rank : Int) then .ok c.toNat else .error .axisOutOfRange

/-- Function `GetDimFromOrderString`: NHWC selects axis 3, NCHW selects axis 1, any
other order string is rejected (`StringToStorageOrder`, outside this excerpt,
is modelled from the spec: exactly the two named layout orders are supported). -/
def GetDimFromOrderString (str : String) : Except Err Int :=
  if str = "NHWC" then .ok 3
  else if str = "NCHW" then .ok 1
  else .error .unsupportedOrder

/-- The operator arguments relevant to the three operators, as read from the
operator definition at construction time. -/
structure OperatorArgs where
  axis : Option Int
  order : Option String
  add_axis : Option Int
  split : List Int

/-- Configuration of `SplitOp` fixed at construction. -/
structure SplitConfig where
  axis : Int
  addAxis : Bool
  split : List Int
  deriving Repr, DecidableEq

/-- Constructor `SplitOp::SplitOp`: rejects giving both `axis` and `order`; with `axis`
present it also reads `add_axis`, otherwise the axis comes from the order
string (default NCHW) and `add_axis` is forced to 0. -/
def SplitOp.construct (args : OperatorArgs) : Except Err SplitConfig :=
  if args.axis.isSome ∧ args.order.isSome then .error .conflictingConfiguration
  else
    match args.axis with
    | some a => .ok ⟨a, (args.add_axis.getD 0) ≠ 0, args.split⟩
    | none =>
      match GetDimFromOrderString (args.order.getD "NCHW") with
      | .error e => .error e
      | .ok d => .ok ⟨d, false, args.split⟩

/-- Constructor `SplitByLengthsOp::SplitByLengthsOp`: same axis/order exclusivity; no
`add_axis`; the `axis` default is 0 (irrelevant when the argument is present). -/
def SplitByLengthsOp.construct (args : OperatorArgs) : Except Err Int :=
  if args.axis.isSome ∧ args.order.isSome then .error .conflictingConfiguration
  else
    match args.axis with
    | some a => .ok a
    | none => GetDimFromOrderString (args.order.getD "NCHW")

/-- Configuration of `ConcatOp` fixed at construction. -/
structure ConcatConfig where
  axis : Int
  addAxis : Bool
  deriving Repr, DecidableEq

/-- Constructor `ConcatOp::ConcatOp`: identical to `SplitOp`'s configuration resolution,
without the `split` argument. -/
def ConcatOp.construct (args : OperatorArgs) : Except Err ConcatConfig :=
  if args.axis.isSome ∧ args.order.isSome then .error .conflictingConfiguration
  else
    match args.axis with
    | some a => .ok ⟨a, (args.add_axis.getD 0) ≠ 0⟩
    | none =>
      match GetDimFromOrderString (args.order.getD "NCHW") with
      | .error e => .error e
      | .ok d => .ok ⟨d, false⟩

/-- Overwrite `dst[off .. off + xs.length)` with `xs` (a single row write of
the matrix copy). -/
def listWrite (dst xs : List Int) (off : Nat) : List Int :=
  dst.take off ++ xs ++ dst.drop (off + xs.length)

/-- Primitive `math::CopyMatrix(itemsize, M, N, A, lda, B, ldb, ...)`: copy `rows` rows
of `cols` elements each from `src` (row `r` starting at `srcOff + r*srcStride`)
into `dst` (row `r` starting at `dstOff + r*dstStride`). -/
def copyMatrix (rows cols : Nat) (src : List Int) (srcOff srcStride : Nat)
    (dst : List Int) (dstOff dstStride : Nat) : List Int :=
  (List.range rows).foldl
    (fun b r =>
      listWrite b ((src.drop (srcOff + r * srcStride)).take cols)
        (dstOff + r * dstStride))
    dst

/-- The output loop of `SplitOp::RunOnDevice` (lines 175–194): each output is
resized and filled by one `CopyMatrix` call reading at the running input
offset; under `add_axis` the axis dimension is 1 and the axis is erased from
the output shape, otherwise the axis extent is the current split entry. -/
def splitOutputs (input : Tensor) (ax before after : Nat) (addAxis : Bool) :
    List Int → Nat → List Tensor
  | [], _ => []
  | a :: rest, input_offset =>
    let axis_dim : Nat := if addAxis then 1 else a.toNat
    let output_dims : List Nat :=
      if addAxis then input.dims.eraseIdx ax else input.dims.set ax a.toNat
    let buf := copyMatrix before (axis_dim * after) input.data input_offset
        (input.dim32 ax * after) (List.replicate output_dims.prod 0) 0
        (axis_dim * after)
    ⟨output_dims, buf, input.dtype⟩ ::
      splitOutputs input ax before after addAxis rest
        (input_offset + axis_dim * after)

/-- Method `SplitOp::RunOnDevice`.  Here `splitInput` is the optional second input (the
ratio tensor, `InputSize() == 2`); `outputSize` is the number of outputs fixed
by the graph. -/
def SplitOp.run (cfg : SplitConfig) (input : Tensor) (splitInput : Option Tensor)
    (outputSize : Nat) : Except Err (List Tensor) :=
  match canonical_axis_index_ cfg.axis input.ndim with
  | .error e => .error e
  | .ok canonical_axis =>
    if ¬ canonical_axis < input.ndim then .error .axisOutOfRange
    else
      let input_channels := input.dim32 canonical_axis
      let axis_dataE : Except Err (List Int) :=
        match splitInput with
        | some split_tensor =>
          if cfg.split.length ≠ 0 then .error .conflictingConfiguration
          else if split_tensor.data.length ≠ outputSize then .error .sizeMismatch
          else .ok split_tensor.data
        | none =>
          if cfg.split.length = 0 then
            if input_channels % outputSize ≠ 0 then .error .indivisibleSplit
            else .ok (List.replicate outputSize ((input_channels / outputSize : Nat) : Int))
          else if cfg.split.length ≠ outputSize then .error .sizeMismatch
          else .ok cfg.split
      match axis_dataE with
      | .error e => .error e
      | .ok axis_data =>
        if (if cfg.addAxis then (outputSize : Int) else axis_data.sum) ≠
            (input_channels : Int) then .error .shapeSumMismatch
        else
          .ok (splitOutputs input canonical_axis
            ((input.dims.take canonical_axis).prod)
            ((input.dims.drop (canonical_axis + 1)).prod)
            cfg.addAxis axis_data 0)

/-- The output loop of `SplitByLengthsOp::RunOnDevice` (lines 222–240): output
`i` takes the sum of the `i`-th group of `groupSize` consecutive length
entries as its axis extent. -/
def splitByLenOutputs (input : Tensor) (ax before after : Nat)
    (axis_data : List Int) (groupSize : Nat) :
    Nat → Nat → Nat → List Tensor
  | 0, _, _ => []
  | k + 1, i, input_offset =>
    let axis_dim : Nat :=
      (((axis_data.drop (groupSize * i)).take groupSize).sum).toNat
    let output_dims := input.dims.set ax axis_dim
    let buf := copyMatrix before (axis_dim * after) input.data input_offset
        (input.dim32 ax * after) (List.replicate output_dims.prod 0) 0
        (axis_dim * after)
    ⟨output_dims, buf, input.dtype⟩ ::
      splitByLenOutputs input ax before after axis_data groupSize k (i + 1)
        (input_offset + axis_dim * after)

/-- Method `SplitByLengthsOp::RunOnDevice`.  Here `length` is the second input (the length
list tensor, host resident). -/
def SplitByLengthsOp.run (axis : Int) (input : Tensor) (length : Tensor)
    (outputSize : Nat) : Except Err (List Tensor) :=
  let length_length := length.data.length
  if length_length % outputSize ≠ 0 then .error .sizeMismatch
  else
    match canonical_axis_index_ axis input.ndim with
    | .error e => .error e
    | .ok canonical_axis =>
      if ¬ canonical_axis < input.ndim then .error .axisOutOfRange
      else
        let input_channels := input.dim32 canonical_axis
        let axis_data := length.data
        if axis_data.sum ≠ (input_channels : Int) then .error .shapeSumMismatch
        else
          .ok (splitByLenOutputs input canonical_axis
            ((input.dims.take canonical_axis).prod)
            ((input.dims.drop (canonical_axis + 1)).prod)
            axis_data (length_length / outputSize) outputSize 0 0)

/-- Modelled from the spec: the tensor resize-to-shape collaborator.  After a
resize the buffer has the new element count; its contents are unspecified by
the spec and are modelled deterministically as the old contents truncated or
zero-padded to the new length. -/
def resizeBuffer (old : List Int) (n : Nat) : List Int :=
  old.take n ++ List.replicate (n - old.length) 0

/-- The type-check loop of `ConcatOp::RunOnDevice` (lines 254–263): every
input must have input 0's element type; the error names the offending input. -/
def checkTypes (input_zero : Tensor) : List Tensor → Nat → Except Err Unit
  | [], _ => .ok ()
  | t :: ts, i =>
    if t.dtype = input_zero.dtype then checkTypes input_zero ts (i + 1)
    else .error (.typeMismatch i)

/-- The inner compatibility loop of `ConcatOp::RunOnDevice` (lines 278–298):
every input `j ≥ 1` must match input 0's extent `dim` at dimension `i`; the
error reports the two extents, the dimension, the input index and the two
full shapes. -/
def checkDimAt (input_zero : Tensor) (i dim : Nat) :
    List Tensor → Nat → Except Err Unit
  | [], _ => .ok ()
  | t :: ts, j =>
    if dim = t.dim32 i then checkDimAt input_zero i dim ts (j + 1)
    else .error (.shapeMismatch dim (t.dim32 i) i j input_zero.dims t.dims)

/-- The outer dimension loop of `ConcatOp::RunOnDevice` (lines 265–299) over
the dimension indices of input 0: the canonical axis is skipped unless
`add_axis` is set; dimensions before the axis multiply into `before`, the
rest into `after`; every visited dimension is checked across all inputs. -/
def concatDimLoop (input_zero : Tensor) (rest : List Tensor) (ax : Nat)
    (addAxis : Bool) : List Nat → Nat → Nat → Except Err (Nat × Nat)
  | [], before, after => .ok (before, after)
  | i :: is, before, after =>
    if i = ax ∧ ¬ addAxis then
      concatDimLoop input_zero rest ax addAxis is before after
    else
      let dim := input_zero.dim32 i
      let ba : Nat × Nat :=
        if i < ax then (before * dim, after) else (before, after * dim)
      match checkDimAt input_zero i dim rest 1 with
      | .error e => .error e
      | .ok _ => concatDimLoop input_zero rest ax addAxis is ba.1 ba.2

/-- The copy loop of `ConcatOp::RunOnDevice` (lines 312–328): each input's
rows are copied into the output at the running output offset, with the
output's row stride `output_channels * after`. -/
def concatCopy (ax : Nat) (addAxis : Bool) (before after output_channels : Nat) :
    List Tensor → List Int → Nat → List Int
  | [], buf, _ => buf
  | t :: ts, buf, output_offset =>
    let axis_dim : Nat := if addAxis then 1 else t.dim32 ax
    let buf2 := copyMatrix before (axis_dim * after) t.data 0 (axis_dim * after)
        buf output_offset (output_channels * after)
    concatCopy ax addAxis before after output_channels ts buf2
      (output_offset + axis_dim * after)

/-- Method `ConcatOp::RunOnDevice`.  Inputs are `input_zero :: rest` (`InputSize ≥ 1`);
`y0` and `s0` are the states of the two outputs (the concatenated tensor and
the host-resident axis-extent record) before the call.  Returns the status
together with the final states of the two outputs: the record is resized to
`[InputSize]` before any validation runs, exactly as in the code. -/
def ConcatOp.run (cfg : ConcatConfig) (input_zero : Tensor) (rest : List Tensor)
    (y0 s0 : Tensor) : Except Err Unit × Tensor × Tensor :=
  let inputSize := 1 + rest.length
  let split : Tensor := ⟨[inputSize], resizeBuffer s0.data inputSize, int32Dtype⟩
  let adj_size := input_zero.ndim + (if cfg.addAxis then 1 else 0)
  match canonical_axis_index_ cfg.axis adj_size with
  | .error e => (.error e, y0, split)
  | .ok canonical_axis =>
    if ¬ canonical_axis < adj_size then (.error .axisOutOfRange, y0, split)
    else
      match checkTypes input_zero rest 1 with
      | .error e => (.error e, y0, split)
      | .ok _ =>
        match concatDimLoop input_zero rest canonical_axis cfg.addAxis
            (List.range input_zero.ndim) 1 1 with
        | .error e => (.error e, y0, split)
        | .ok ba =>
          let axis_data : List Nat := (input_zero :: rest).map
            (fun t => if cfg.addAxis then 1 else t.dim32 canonical_axis)
          let output_channels := axis_data.sum
          let split2 : Tensor := ⟨[inputSize], axis_data.map Int.ofNat, int32Dtype⟩
          let output_dims : List Nat :=
            if cfg.addAxis then
              input_zero.dims.insertIdx canonical_axis output_channels
            else input_zero.dims.set canonical_axis output_channels
          let ybuf := concatCopy canonical_axis cfg.addAxis ba.1 ba.2
            output_channels (input_zero :: rest)
            (List.replicate output_dims.prod 0) 0
          (.ok (), ⟨output_dims, ybuf, input_zero.dtype⟩, split2)

/-- The per-output axis extent `add_axis_ ? 1 : axis_data[i]` of the split
copy loop, as a natural number. -/
def adimOf (addAxis : Bool) (a : Int) : Nat := if addAxis then 1 else a.toNat

/-- Sum of the per-output axis extents of the first `k` split entries. -/
def adimPrefix (addAxis : Bool) (l : List Int) (k : Nat) : Nat :=
  ((l.take k).map (adimOf addAxis)).sum

/-- The per-input axis extent `add_axis_ ? 1 : input.dim32(axis)` of the
concat loops. -/
def adimT (addAxis : Bool) (ax : Nat) (t : Tensor) : Nat :=
  if addAxis then 1 else t.dim32 ax

/-- Sum of the per-input axis extents of a list of concat inputs. -/
def adimSumT (addAxis : Bool) (ax : Nat) (ts : List Tensor) : Nat :=
  (ts.map (adimT addAxis ax)).sum

/-- The output shape computed by a successful concat run. -/
def concatOutputDims (addX : Bool) (ax : Nat) (z : Tensor) (rest : List Tensor) :
    List Nat :=
  if addX then z.dims.insertIdx ax (adimSumT addX ax (z :: rest))
  else z.dims.set ax (adimSumT addX ax (z :: rest))

/-- The first output (the concatenated tensor) of a successful concat run. -/
def concatResultY (cfg : ConcatConfig) (z : Tensor) (rest : List Tensor)
    (ax : Nat) : Tensor :=
  ⟨concatOutputDims cfg.addAxis ax z rest,
   concatCopy ax cfg.addAxis ((z.dims.take ax).prod)
     ((z.dims.drop (ax + (if cfg.addAxis then 0 else 1))).prod)
     (adimSumT cfg.addAxis ax (z :: rest)) (z :: rest)
     (List.replicate (concatOutputDims cfg.addAxis ax z rest).prod 0) 0,
   z.dtype⟩

/-- The second output (the axis-extent record) of a successful concat run. -/
def concatResultS (addX : Bool) (ax : Nat) (z : Tensor) (rest : List Tensor) :
    Tensor :=
  ⟨[1 + rest.length], ((z :: rest).map (adimT addX ax)).map Int.ofNat, int32Dtype⟩

/-! ### Basic properties of the copy primitive -/

theorem listWrite_nil (dst : List Int) (off : Nat) : listWrite dst [] off = dst := by
  simp [listWrite]

theorem length_listWrite (dst xs : List Int) (off : Nat)
    (h : off + xs.length ≤ dst.length) :
    (listWrite dst xs off).length = dst.length := by
  simp only [listWrite, List.length_append, List.length_take, List.length_drop]
  omega

theorem getElem?_listWrite (dst xs : List Int) (off n : Nat)
    (h : off + xs.length ≤ dst.length) :
    (listWrite dst xs off)[n]? =
      if off ≤ n ∧ n < off + xs.length then xs[n - off]? else dst[n]? := by
  have hofflen : (dst.take off).length = off := by
    simp only [List.length_take]; omega
  have hAlen : (dst.take off ++ xs).length = off + xs.length := by
    simp only [List.length_append, hofflen]
  unfold listWrite
  rcases Nat.lt_or_ge n (off + xs.length) with h2 | h2
  · rw [List.getElem?_append_left (by rw [hAlen]; exact h2)]
    rcases Nat.lt_or_ge n off with h1 | h1
    · rw [List.getElem?_append_left (by rw [hofflen]; exact h1),
        List.getElem?_take_of_lt h1]
      simp only [if_neg (by omega : ¬ (off ≤ n ∧ n < off + xs.length))]
    · rw [List.getElem?_append_right (by rw [hofflen]; exact h1), hofflen]
      simp only [if_pos (And.intro h1 h2)]
  · rw [List.getElem?_append_right (by rw [hAlen]; exact h2), hAlen,
      List.getElem?_drop]
    have : off + xs.length + (n - (off + xs.length)) = n := by omega
    rw [this]
    simp only [if_neg (by omega : ¬ (off ≤ n ∧ n < off + xs.length))]

theorem copyMatrix_zero (cols : Nat) (src : List Int) (srcOff srcStride : Nat)
    (dst : List Int) (dstOff dstStride : Nat) :
    copyMatrix 0 cols src srcOff srcStride dst dstOff dstStride = dst := rfl

theorem copyMatrix_succ (rows cols : Nat) (src : List Int) (srcOff srcStride : Nat)
    (dst : List Int) (dstOff dstStride : Nat) :
    copyMatrix (rows + 1) cols src srcOff srcStride dst dstOff dstStride =
      listWrite (copyMatrix rows cols src srcOff srcStride dst dstOff dstStride)
        ((src.drop (srcOff + rows * srcStride)).take cols)
        (dstOff + rows * dstStride) := by
  unfold copyMatrix
  rw [List.range_succ, List.foldl_append]
  rfl

theorem length_copyMatrix (rows cols : Nat) (src : List Int) (srcOff srcStride : Nat)
    (dst : List Int) (dstOff dstStride : Nat)
    (h : ∀ r, r < rows → dstOff + r * dstStride + cols ≤ dst.length) :
    (copyMatrix rows cols src srcOff srcStride dst dstOff dstStride).length =
      dst.length := by
  induction rows with
  | zero => rfl
  | succ m ih =>
    rw [copyMatrix_succ, length_listWrite, ih (fun r hr => h r (by omega))]
    rw [ih (fun r hr => h r (by omega))]
    have hx : ((src.drop (srcOff + m * srcStride)).take cols).length ≤ cols := by
      simp only [List.length_take]; omega
    have := h m (by omega)
    omega

theorem getElem?_copyMatrix_untouched (rows cols : Nat) (src : List Int)
    (srcOff srcStride : Nat) (dst : List Int) (dstOff dstStride n : Nat)
    (hdst : ∀ r, r < rows → dstOff + r * dstStride + cols ≤ dst.length)
    (hn : ∀ r, r < rows → n < dstOff + r * dstStride ∨
      dstOff + r * dstStride + cols ≤ n) :
    (copyMatrix rows cols src srcOff srcStride dst dstOff dstStride)[n]? =
      dst[n]? := by
  induction rows with
  | zero => rfl
  | succ m ih =>
    have hlenm :
        (copyMatrix m cols src srcOff srcStride dst dstOff dstStride).length =
          dst.length :=
      length_copyMatrix _ _ _ _ _ _ _ _ (fun r hr => hdst r (by omega))
    have hx : ((src.drop (srcOff + m * srcStride)).take cols).length ≤ cols := by
      simp only [List.length_take]; omega
    rw [copyMatrix_succ, getElem?_listWrite _ _ _ _
      (by rw [hlenm]; have := hdst m (by omega); omega)]
    have hcond : ¬ (dstOff + m * dstStride ≤ n ∧
        n < dstOff + m * dstStride +
          ((src.drop (srcOff + m * srcStride)).take cols).length) := by
      rcases hn m (by omega) with h1 | h1 <;> omega
    rw [if_neg hcond]
    exact ih (fun r hr => hdst r (by omega)) (fun r hr => hn r (by omega))

theorem getElem?_copyMatrix_row (rows cols : Nat) (src : List Int)
    (srcOff srcStride : Nat) (dst : List Int) (dstOff dstStride r n : Nat)
    (hdst : ∀ q, q < rows → dstOff + q * dstStride + cols ≤ dst.length)
    (hsrc : srcOff + r * srcStride + cols ≤ src.length)
    (hmono : cols ≤ dstStride)
    (hr : r < rows) (hlo : dstOff + r * dstStride ≤ n)
    (hhi : n < dstOff + r * dstStride + cols) :
    (copyMatrix rows cols src srcOff srcStride dst dstOff dstStride)[n]? =
      src[srcOff + r * srcStride + (n - (dstOff + r * dstStride))]? := by
  induction rows with
  | zero => omega
  | succ m ih =>
    have hlenm :
        (copyMatrix m cols src srcOff srcStride dst dstOff dstStride).length =
          dst.length :=
      length_copyMatrix _ _ _ _ _ _ _ _ (fun q hq => hdst q (by omega))
    have hx : ((src.drop (srcOff + m * srcStride)).take cols).length ≤ cols := by
      simp only [List.length_take]; omega
    rw [copyMatrix_succ, getElem?_listWrite _ _ _ _
      (by rw [hlenm]; have := hdst m (by omega); omega)]
    rcases Nat.lt_or_ge r m with hrm | hrm
    · have hmul : (r + 1) * dstStride ≤ m * dstStride :=
        Nat.mul_le_mul_right _ hrm
      have hsm : (r + 1) * dstStride = r * dstStride + dstStride :=
        Nat.succ_mul _ _
      rw [if_neg (by omega)]
      exact ih (fun q hq => hdst q (by omega)) hrm
    · have hrem : r = m := by omega
      subst hrem
      have hxfull : ((src.drop (srcOff + r * srcStride)).take cols).length = cols := by
        simp only [List.length_take, List.length_drop]; omega
      rw [if_pos (by omega)]
      have hk : n - (dstOff + r * dstStride) < cols := by omega
      rw [List.getElem?_take_of_lt hk, List.getElem?_drop]

theorem getElem?_copyMatrix_grid (rows cols W : Nat) (src : List Int)
    (srcOff srcStride : Nat) (dst : List Int) (dstOff : Nat)
    (hWc : dstOff + cols ≤ W)
    (hdst : dst.length = rows * W)
    (hsrc : ∀ q, q < rows → srcOff + q * srcStride + cols ≤ src.length)
    (r c : Nat) (hr : r < rows) (hc : c < W) :
    (copyMatrix rows cols src srcOff srcStride dst dstOff W)[r * W + c]? =
      if dstOff ≤ c ∧ c < dstOff + cols then
        src[srcOff + r * srcStride + (c - dstOff)]?
      else dst[r * W + c]? := by
  have hdstb : ∀ q, q < rows → dstOff + q * W + cols ≤ dst.length := by
    intro q hq
    have h1 : (q + 1) * W = q * W + W := Nat.succ_mul _ _
    have h2 : (q + 1) * W ≤ rows * W := Nat.mul_le_mul_right _ hq
    omega
  by_cases hcnd : dstOff ≤ c ∧ c < dstOff + cols
  · rw [if_pos hcnd]
    have := getElem?_copyMatrix_row rows cols src srcOff srcStride dst dstOff W r
      (r * W + c) hdstb (hsrc r hr) (by omega) hr (by omega) (by omega)
    rw [this]
    have : r * W + c - (dstOff + r * W) = c - dstOff := by omega
    rw [this]
  · rw [if_neg hcnd]
    apply getElem?_copyMatrix_untouched _ _ _ _ _ _ _ _ _ hdstb
    intro q hq
    rcases Nat.lt_trichotomy q r with hqr | hqr | hqr
    · right
      have h1 : (q + 1) * W = q * W + W := Nat.succ_mul _ _
      have h2 : (q + 1) * W ≤ r * W := Nat.mul_le_mul_right _ hqr
      omega
    · subst hqr; omega
    · left
      have h1 : (r + 1) * W = r * W + W := Nat.succ_mul _ _
      have h2 : (r + 1) * W ≤ q * W := Nat.mul_le_mul_right _ hqr
      omega

/-! ### Characterization of the split output loop -/

theorem length_splitOutputs (input : Tensor) (ax b af : Nat) (addX : Bool) :
    ∀ (l : List Int) (off : Nat),
      (splitOutputs input ax b af addX l off).length = l.length := by
  intro l
  induction l with
  | nil => intro off; rfl
  | cons x rest ih =>
    intro off
    simp only [splitOutputs, List.length_cons, ih]

theorem getElem?_splitOutputs (input : Tensor) (ax b af : Nat) (addX : Bool) :
    ∀ (l : List Int) (off k : Nat) (a : Int), l[k]? = some a →
      (splitOutputs input ax b af addX l off)[k]? = some
        ⟨(if addX then input.dims.eraseIdx ax else input.dims.set ax a.toNat),
         copyMatrix b (adimOf addX a * af) input.data
           (off + adimPrefix addX l k * af) (input.dim32 ax * af)
           (List.replicate
             (if addX then input.dims.eraseIdx ax
              else input.dims.set ax a.toNat).prod 0)
           0 (adimOf addX a * af),
         input.dtype⟩ := by
  intro l
  induction l with
  | nil => intro off k a h; simp at h
  | cons x rest ih =>
    intro off k a h
    match k with
    | 0 =>
      simp only [List.getElem?_cons_zero, Option.some.injEq] at h
      subst h
      simp only [splitOutputs, List.getElem?_cons_zero, Option.some.injEq,
        adimPrefix, List.take_zero, List.map_nil, List.sum_nil, Nat.zero_mul,
        Nat.add_zero, adimOf]
    | k + 1 =>
      simp only [List.getElem?_cons_succ] at h
      simp only [splitOutputs, List.getElem?_cons_succ]
      rw [ih _ k a h]
      have hpre : adimPrefix addX (x :: rest) (k + 1) =
          adimOf addX x + adimPrefix addX rest k := by
        simp only [adimPrefix, List.take_succ_cons, List.map_cons, List.sum_cons]
      have hoff : off + adimOf addX x * af + adimPrefix addX rest k * af =
          off + adimPrefix addX (x :: rest) (k + 1) * af := by
        rw [hpre, Nat.add_mul]; omega
      simp only [adimOf] at hoff ⊢
      rw [hoff]

theorem mem_splitOutputs_dtype (input : Tensor) (ax b af : Nat) (addX : Bool) :
    ∀ (l : List Int) (off : Nat) (t : Tensor),
      t ∈ splitOutputs input ax b af addX l off → t.dtype = input.dtype := by
  intro l
  induction l with
  | nil => intro off t h; simp [splitOutputs] at h
  | cons x rest ih =>
    intro off t h
    simp only [splitOutputs, List.mem_cons] at h
    rcases h with h | h
    · subst h; rfl
    · exact ih _ t h

/-! ### Inversion of a successful split run -/

theorem canonical_axis_index_ok_lt (axis : Int) (rank v : Nat)
    (h : canonical_axis_index_ axis rank = .ok v) : v < rank := by
  simp only [canonical_axis_index_] at h
  split at h
  · rename_i hc
    cases h
    omega
  · cases h

theorem SplitOp.run_ok_inv (cfg : SplitConfig) (X : Tensor) (sIn : Option Tensor)
    (N : Nat) (outs : List Tensor)
    (h : SplitOp.run cfg X sIn N = .ok outs) :
    ∃ ax axis_data,
      canonical_axis_index_ cfg.axis X.ndim = .ok ax ∧ ax < X.ndim ∧
      axis_data.length = N ∧
      ((axis_data = List.replicate N ((X.dim32 ax / N : Nat) : Int)) ∨
       (axis_data = cfg.split) ∨
       (∃ st, sIn = some st ∧ axis_data = st.data)) ∧
      (if cfg.addAxis then (N : Int) else axis_data.sum) = (X.dim32 ax : Int) ∧
      outs = splitOutputs X ax ((X.dims.take ax).prod)
        ((X.dims.drop (ax + 1)).prod) cfg.addAxis axis_data 0 := by
  unfold SplitOp.run at h
  cases hcan : canonical_axis_index_ cfg.axis X.ndim with
  | error e => rw [hcan] at h; cases h
  | ok ax =>
    rw [hcan] at h
    dsimp only [] at h
    have hlt : ax < X.ndim := canonical_axis_index_ok_lt _ _ _ hcan
    rw [if_neg (by omega : ¬ ¬ ax < X.ndim)] at h
    refine ⟨ax, ?_⟩
    cases sIn with
    | some st =>
      simp only [] at h
      by_cases h1 : cfg.split.length ≠ 0
      · rw [if_pos h1] at h; cases h
      · rw [if_neg h1] at h
        by_cases h2 : st.data.length ≠ N
        · rw [if_pos h2] at h; cases h
        · rw [if_neg h2] at h
          dsimp only [] at h
          by_cases h3 : (if cfg.addAxis then (N : Int) else st.data.sum) ≠
              (X.dim32 ax : Int)
          · rw [if_pos h3] at h; cases h
          · rw [if_neg h3] at h
            cases h
            exact ⟨st.data, rfl, hlt, by omega, Or.inr (Or.inr ⟨st, rfl, rfl⟩),
              by omega, rfl⟩
    | none =>
      simp only [] at h
      by_cases h1 : cfg.split.length = 0
      · rw [if_pos h1] at h
        by_cases h2 : X.dim32 ax % N ≠ 0
        · rw [if_pos h2] at h; cases h
        · rw [if_neg h2] at h
          dsimp only [] at h
          by_cases h3 : (if cfg.addAxis then (N : Int)
              else (List.replicate N ((X.dim32 ax / N : Nat) : Int)).sum) ≠
              (X.dim32 ax : Int)
          · rw [if_pos h3] at h; cases h
          · rw [if_neg h3] at h
            cases h
            exact ⟨_, rfl, hlt, List.length_replicate _ _, Or.inl rfl,
              by omega, rfl⟩
      · rw [if_neg h1] at h
        by_cases h2 : cfg.split.length ≠ N
        · rw [if_pos h2] at h; cases h
        · rw [if_neg h2] at h
          dsimp only [] at h
          by_cases h3 : (if cfg.addAxis then (N : Int) else cfg.split.sum) ≠
              (X.dim32 ax : Int)
          · rw [if_pos h3] at h; cases h
          · rw [if_neg h3] at h
            cases h
            exact ⟨cfg.split, rfl, hlt, by omega, Or.inr (Or.inl rfl),
              by omega, rfl⟩

/-! ### The concat validation loops -/

theorem checkTypes_ok (z : Tensor) :
    ∀ (ts : List Tensor) (i : Nat), (∀ t ∈ ts, t.dtype = z.dtype) →
      checkTypes z ts i = .ok () := by
  intro ts
  induction ts with
  | nil => intro i h; rfl
  | cons t ts ih =>
    intro i h
    simp only [checkTypes, if_pos (h t (List.mem_cons_self t ts))]
    exact ih (i + 1) (fun u hu => h u (List.mem_cons_of_mem _ hu))

theorem checkDimAt_ok (z : Tensor) (i dim : Nat) :
    ∀ (ts : List Tensor) (j : Nat), (∀ t ∈ ts, dim = t.dim32 i) →
      checkDimAt z i dim ts j = .ok () := by
  intro ts
  induction ts with
  | nil => intro j h; rfl
  | cons t ts ih =>
    intro j h
    simp only [checkDimAt, if_pos (h t (List.mem_cons_self t ts))]
    exact ih (j + 1) (fun u hu => h u (List.mem_cons_of_mem _ hu))

theorem concatDimLoop_append (z : Tensor) (rest : List Tensor) (ax : Nat)
    (addX : Bool) :
    ∀ (is js : List Nat) (b a : Nat),
      concatDimLoop z rest ax addX (is ++ js) b a =
        match concatDimLoop z rest ax addX is b a with
        | .ok ba => concatDimLoop z rest ax addX js ba.1 ba.2
        | .error e => .error e := by
  intro is
  induction is with
  | nil => intro js b a; rfl
  | cons i is ih =>
    intro js b a
    simp only [List.cons_append, concatDimLoop]
    by_cases hsk : i = ax ∧ ¬ addX
    · rw [if_pos hsk, if_pos hsk]
      exact ih js b a
    · rw [if_neg hsk, if_neg hsk]
      cases hc : checkDimAt z i (z.dim32 i) rest 1 with
      | error e => rfl
      | ok u => exact ih js _ _

theorem concatDimLoop_range_ok (z : Tensor) (rest : List Tensor) (ax : Nat)
    (addX : Bool)
    (hcompat : ∀ (i : Nat) (t : Tensor), t ∈ rest →
      (i = ax ∧ ¬ addX) ∨ t.dim32 i = z.dim32 i) :
    ∀ n, n ≤ z.ndim →
      concatDimLoop z rest ax addX (List.range n) 1 1 =
        .ok ((z.dims.take (min n ax)).prod,
             ((z.dims.take n).drop (ax + (if addX then 0 else 1))).prod) := by
  intro n
  induction n with
  | zero =>
    intro h
    simp [concatDimLoop]
  | succ m ih =>
    intro hm
    have hmlen : m < z.dims.length := hm
    have hdm : z.dim32 m = z.dims[m] := by
      simp [Tensor.dim32, List.getD_eq_getElem?_getD, List.getElem?_eq_getElem hmlen]
    have htake : z.dims.take (m + 1) = z.dims.take m ++ [z.dims[m]] := by
      rw [List.take_succ, List.getElem?_eq_getElem hmlen]
      rfl
    have hlentake : (z.dims.take m).length = m := by
      simp only [List.length_take]; omega
    have hk01 : (if addX then 0 else 1) = 0 ∨ (if addX then 0 else 1) = 1 := by
      cases addX <;> simp
    rw [List.range_succ, concatDimLoop_append, ih (by omega)]
    dsimp only []
    by_cases hsk : m = ax ∧ ¬ addX
    · have hstep : ∀ b a, concatDimLoop z rest ax addX [m] b a = .ok (b, a) := by
        intro b a
        simp only [concatDimLoop, if_pos hsk]
      rw [hstep]
      obtain ⟨hax, haddX⟩ := hsk
      subst hax
      have hif : (if addX then 0 else 1) = 1 := if_neg haddX
      rw [hif]
      have e1 : min m m = min (m + 1) m := by omega
      have e2 : (z.dims.take m).drop (m + 1) = [] :=
        List.drop_eq_nil_of_le (by rw [hlentake]; omega)
      have e3 : (z.dims.take (m + 1)).drop (m + 1) = [] :=
        List.drop_eq_nil_of_le (by simp only [List.length_take]; omega)
      rw [e1, e2, e3]
    · have hdim : checkDimAt z m (z.dim32 m) rest 1 = .ok () := by
        apply checkDimAt_ok
        intro t ht
        rcases hcompat m t ht with h | h
        · exact absurd h hsk
        · exact h.symm
      have hstep : ∀ b a, concatDimLoop z rest ax addX [m] b a =
          .ok (if m < ax then (b * z.dim32 m, a) else (b, a * z.dim32 m)) := by
        intro b a
        simp only [concatDimLoop, if_neg hsk, hdim]
      rw [hstep]
      rcases Nat.lt_or_ge m ax with hmax | hmax
      · rw [if_pos hmax]
        have e1 : min (m + 1) ax = m + 1 := by omega
        have e2 : min m ax = m := by omega
        have e3 : (z.dims.take (m + 1)).drop (ax + (if addX then 0 else 1)) = [] := by
          apply List.drop_eq_nil_of_le
          simp only [List.length_take]
          omega
        have e4 : (z.dims.take m).drop (ax + (if addX then 0 else 1)) = [] := by
          apply List.drop_eq_nil_of_le
          rw [hlentake]
          omega
        rw [e1, e2, e3, e4, htake, List.prod_append, hdm]
        simp
      · rw [if_neg (by omega : ¬ m < ax)]
        have hkm : ax + (if addX then 0 else 1) ≤ m := by
          rcases Nat.eq_or_lt_of_le hmax with heq | hlt
          · have haddX : addX = true := by
              by_contra hh
              exact hsk ⟨heq.symm, by simpa using hh⟩
            rw [haddX]
            simpa using hmax
          · omega
        have e1 : min (m + 1) ax = ax := by omega
        have e2 : min m ax = ax := by omega
        have e3 : (z.dims.take (m + 1)).drop (ax + (if addX then 0 else 1)) =
            (z.dims.take m).drop (ax + (if addX then 0 else 1)) ++ [z.dims[m]] := by
          rw [htake, List.drop_append_eq_append_drop, hlentake,
            Nat.sub_eq_zero_of_le hkm]
          rfl
        rw [e1, e2, e3, List.prod_append, hdm]
        simp

/-! ### The successful concat run -/

theorem ConcatOp.run_ok (cfg : ConcatConfig) (z : Tensor) (rest : List Tensor)
    (y0 s0 : Tensor) (ax : Nat)
    (hax : canonical_axis_index_ cfg.axis
      (z.ndim + (if cfg.addAxis then 1 else 0)) = .ok ax)
    (hty : ∀ t ∈ rest, t.dtype = z.dtype)
    (hdims : ∀ (i : Nat) (t : Tensor), t ∈ rest →
      (i = ax ∧ ¬ cfg.addAxis) ∨ t.dim32 i = z.dim32 i) :
    ConcatOp.run cfg z rest y0 s0 =
      (.ok (), concatResultY cfg z rest ax, concatResultS cfg.addAxis ax z rest) := by
  have hlt : ax < z.ndim + (if cfg.addAxis then 1 else 0) :=
    canonical_axis_index_ok_lt _ _ _ hax
  have haxle : ax ≤ z.ndim := by
    rcases (by cases cfg.addAxis <;> simp :
        (if cfg.addAxis then 1 else 0) = 0 ∨ (if cfg.addAxis then 1 else 0) = 1)
      with h | h <;> omega
  unfold ConcatOp.run
  dsimp only []
  rw [hax]
  dsimp only []
  rw [if_neg (by omega : ¬ ¬ ax < z.ndim + (if cfg.addAxis then 1 else 0))]
  rw [checkTypes_ok z rest 1 hty]
  rw [concatDimLoop_range_ok z rest ax cfg.addAxis hdims z.ndim le_rfl]
  dsimp only []
  have ht : List.take z.ndim z.dims = z.dims := List.take_length z.dims
  rw [Nat.min_eq_right haxle, ht]
  rfl

/-! ### The concat copy loop -/

theorem length_concatCopy (ax : Nat) (addX : Bool) (b af ch : Nat) :
    ∀ (ts : List Tensor) (buf : List Int) (off : Nat),
      buf.length = b * (ch * af) →
      off + adimSumT addX ax ts ≤ ch →
      (concatCopy ax addX b af ch ts buf (off * af)).length = b * (ch * af) := by
  intro ts
  induction ts with
  | nil =>
    intro buf off hb _
    simpa [concatCopy] using hb
  | cons t ts ih =>
    intro buf off hb hoff
    have hsum : adimSumT addX ax (t :: ts) =
        adimT addX ax t + adimSumT addX ax ts := by
      simp [adimSumT]
    have hstep : concatCopy ax addX b af ch (t :: ts) buf (off * af) =
        concatCopy ax addX b af ch ts
          (copyMatrix b (adimT addX ax t * af) t.data 0 (adimT addX ax t * af)
            buf (off * af) (ch * af))
          (off * af + adimT addX ax t * af) := rfl
    have hrow : ∀ r, r < b →
        off * af + r * (ch * af) + adimT addX ax t * af ≤ buf.length := by
      intro r hrb
      have h1 : (off + adimT addX ax t) * af ≤ ch * af :=
        Nat.mul_le_mul_right _ (by omega)
      have h2 : (r + 1) * (ch * af) ≤ b * (ch * af) :=
        Nat.mul_le_mul_right _ (by omega)
      have h3 : (r + 1) * (ch * af) = r * (ch * af) + ch * af := Nat.succ_mul _ _
      have h4 : (off + adimT addX ax t) * af =
          off * af + adimT addX ax t * af := Nat.add_mul _ _ _
      omega
    have hb2 : (copyMatrix b (adimT addX ax t * af) t.data 0
        (adimT addX ax t * af) buf (off * af) (ch * af)).length =
        b * (ch * af) := by
      rw [length_copyMatrix _ _ _ _ _ _ _ _ hrow]
      exact hb
    rw [hstep]
    have hadd : off * af + adimT addX ax t * af =
        (off + adimT addX ax t) * af := (Nat.add_mul _ _ _).symm
    rw [hadd]
    exact ih _ (off + adimT addX ax t) hb2 (by omega)

theorem getElem?_concatCopy (ax : Nat) (addX : Bool) (b af ch : Nat)
    (src : List Int) :
    ∀ (ts : List Tensor) (buf : List Int) (off : Nat),
      buf.length = b * (ch * af) →
      off + adimSumT addX ax ts ≤ ch →
      (∀ (k : Nat) (t : Tensor), ts[k]? = some t →
        (t.data.length = b * (adimT addX ax t * af) ∧
         ∀ (r c : Nat), r < b → c < adimT addX ax t * af →
           t.data[r * (adimT addX ax t * af) + c]? =
             src[r * (ch * af) +
               (off + adimSumT addX ax (ts.take k)) * af + c]?)) →
      ∀ (r c : Nat), r < b → c < ch * af →
        (concatCopy ax addX b af ch ts buf (off * af))[r * (ch * af) + c]? =
          if off * af ≤ c ∧ c < (off + adimSumT addX ax ts) * af then
            src[r * (ch * af) + c]?
          else buf[r * (ch * af) + c]? := by
  intro ts
  induction ts with
  | nil =>
    intro buf off hb hoff hts r c hr hc
    have hz : adimSumT addX ax ([] : List Tensor) = 0 := by
      simp [adimSumT]
    rw [hz, Nat.add_zero]
    rw [if_neg (by omega)]
    rfl
  | cons t ts ih =>
    intro buf off hb hoff hts r c hr hc
    have hsum : adimSumT addX ax (t :: ts) =
        adimT addX ax t + adimSumT addX ax ts := by
      simp [adimSumT]
    have ht0 := hts 0 t (by simp)
    have hstep : concatCopy ax addX b af ch (t :: ts) buf (off * af) =
        concatCopy ax addX b af ch ts
          (copyMatrix b (adimT addX ax t * af) t.data 0 (adimT addX ax t * af)
            buf (off * af) (ch * af))
          (off * af + adimT addX ax t * af) := rfl
    have hadd : off * af + adimT addX ax t * af =
        (off + adimT addX ax t) * af := (Nat.add_mul _ _ _).symm
    have hWc : off * af + adimT addX ax t * af ≤ ch * af := by
      have := Nat.mul_le_mul_right af
        (by omega : off + adimT addX ax t ≤ ch)
      have h4 : (off + adimT addX ax t) * af =
          off * af + adimT addX ax t * af := Nat.add_mul _ _ _
      omega
    have hsrcgrid : ∀ q, q < b →
        0 + q * (adimT addX ax t * af) + adimT addX ax t * af ≤
          t.data.length := by
      intro q hq
      have h1 : (q + 1) * (adimT addX ax t * af) ≤
          b * (adimT addX ax t * af) := Nat.mul_le_mul_right _ (by omega)
      have h2 : (q + 1) * (adimT addX ax t * af) =
          q * (adimT addX ax t * af) + adimT addX ax t * af := Nat.succ_mul _ _
      omega
    have hgrid := getElem?_copyMatrix_grid b (adimT addX ax t * af) (ch * af)
      t.data 0 (adimT addX ax t * af) buf (off * af) hWc hb hsrcgrid r c hr hc
    have hb2 : (copyMatrix b (adimT addX ax t * af) t.data 0
        (adimT addX ax t * af) buf (off * af) (ch * af)).length =
        b * (ch * af) := by
      rw [length_copyMatrix]
      · exact hb
      · intro q hq
        have h1 : (off + adimT addX ax t) * af ≤ ch * af :=
          Nat.mul_le_mul_right _ (by omega)
        have h2 : (q + 1) * (ch * af) ≤ b * (ch * af) :=
          Nat.mul_le_mul_right _ (by omega)
        have h3 : (q + 1) * (ch * af) = q * (ch * af) + ch * af :=
          Nat.succ_mul _ _
        have h4 : (off + adimT addX ax t) * af =
            off * af + adimT addX ax t * af := Nat.add_mul _ _ _
        omega
    have hts2 : ∀ (k : Nat) (u : Tensor), ts[k]? = some u →
        (u.data.length = b * (adimT addX ax u * af) ∧
         ∀ (r c : Nat), r < b → c < adimT addX ax u * af →
           u.data[r * (adimT addX ax u * af) + c]? =
             src[r * (ch * af) +
               (off + adimT addX ax t + adimSumT addX ax (ts.take k)) * af +
               c]?) := by
      intro k u hk
      have := hts (k + 1) u (by simpa using hk)
      refine ⟨this.1, ?_⟩
      intro r1 c1 hr1 hc1
      have heq : adimSumT addX ax ((t :: ts).take (k + 1)) =
          adimT addX ax t + adimSumT addX ax (ts.take k) := by
        simp [adimSumT]
      have := this.2 r1 c1 hr1 hc1
      rw [heq] at this
      have harr : off + (adimT addX ax t + adimSumT addX ax (ts.take k)) =
          off + adimT addX ax t + adimSumT addX ax (ts.take k) := by omega
      rw [harr] at this
      exact this
    have hihres := ih (copyMatrix b (adimT addX ax t * af) t.data 0
        (adimT addX ax t * af) buf (off * af) (ch * af))
      (off + adimT addX ax t) hb2 (by omega) hts2 r c hr hc
    rw [hstep, hadd, hihres]
    -- reconcile the region case split
    have e1 : (off + adimT addX ax t) * af =
        off * af + adimT addX ax t * af := Nat.add_mul _ _ _
    have e2 : (off + adimT addX ax t + adimSumT addX ax ts) * af =
        off * af + adimT addX ax t * af + adimSumT addX ax ts * af := by
      rw [Nat.add_mul, Nat.add_mul]
    have e3 : (off + adimSumT addX ax (t :: ts)) * af =
        off * af + adimT addX ax t * af + adimSumT addX ax ts * af := by
      rw [hsum]
      ring
    by_cases hcA : c < off * af
    · rw [if_neg (by omega), if_neg (by omega), hgrid, if_neg (by omega)]
    · by_cases hcB : c < off * af + adimT addX ax t * af
      · rw [if_neg (by omega), if_pos (by omega), hgrid, if_pos (by omega)]
        simp only [Nat.zero_add]
        have hc1 : c - off * af < adimT addX ax t * af := by omega
        have := ht0.2 r (c - off * af) hr hc1
        rw [this]
        have hz : adimSumT addX ax ((t :: ts).take 0) = 0 := by
          simp [adimSumT]
        rw [hz]
        have : r * (ch * af) + (off + 0) * af + (c - off * af) =
            r * (ch * af) + c := by
          have h4 : (off + 0) * af = off * af := by rw [Nat.add_zero]
          omega
        rw [this]
      · by_cases hcC : c < off * af + adimT addX ax t * af +
            adimSumT addX ax ts * af
        · rw [if_pos (by omega), if_pos (by omega)]
        · rw [if_neg (by omega), if_neg (by omega), hgrid, if_neg (by omega)]

/-! ### Shape arithmetic -/

theorem getD_set_self_of_lt (l : List Nat) (n v : Nat) (h : n < l.length) :
    (l.set n v).getD n 0 = v := by
  rw [List.getD_eq_getElem?_getD, List.getElem?_set_self h]
  rfl

theorem set_getD_self (l : List Nat) (n : Nat) (h : n < l.length) :
    l.set n (l.getD n 0) = l := by
  apply List.ext_getElem?
  intro m
  by_cases hm : n = m
  · subst hm
    rw [List.getElem?_set_self h, List.getD_eq_getElem?_getD,
      List.getElem?_eq_getElem h]
    rfl
  · rw [List.getElem?_set_ne hm]

theorem take_set_self (l : List Nat) (n v : Nat) :
    (l.set n v).take n = l.take n := by
  rw [List.set_take]
  apply List.set_eq_of_length_le
  simp only [List.length_take]
  omega

theorem drop_succ_set_self (l : List Nat) (n v : Nat) :
    (l.set n v).drop (n + 1) = l.drop (n + 1) := by
  rw [List.drop_set, if_pos (by omega)]

theorem prod_at_axis (l : List Nat) (n : Nat) (h : n < l.length) :
    l.prod = (l.take n).prod * (l.getD n 0 * (l.drop (n + 1)).prod) := by
  conv_lhs => rw [← List.take_append_drop n l]
  rw [List.prod_append, List.drop_eq_getElem_cons h, List.prod_cons,
    List.getD_eq_getElem?_getD, List.getElem?_eq_getElem h]
  rfl

theorem prod_set_axis (l : List Nat) (n v : Nat) (h : n < l.length) :
    (l.set n v).prod = (l.take n).prod * (v * (l.drop (n + 1)).prod) := by
  have hlen : n < (l.set n v).length := by
    rw [List.length_set]
    exact h
  rw [prod_at_axis (l.set n v) n hlen, take_set_self, drop_succ_set_self,
    getD_set_self_of_lt _ _ _ h]

theorem prod_eraseIdx_axis (l : List Nat) (n : Nat) :
    (l.eraseIdx n).prod = (l.take n).prod * (l.drop (n + 1)).prod := by
  rw [List.eraseIdx_eq_take_drop_succ, List.prod_append]

theorem take_eraseIdx_self (l : List Nat) (n : Nat) (h : n < l.length) :
    (l.eraseIdx n).take n = l.take n := by
  have hl : (l.take n).length = n := by
    simp only [List.length_take]
    omega
  rw [List.eraseIdx_eq_take_drop_succ, List.take_append_eq_append_take, hl,
    Nat.sub_self, List.take_zero, List.append_nil, List.take_take,
    Nat.min_self]

theorem drop_eraseIdx_self (l : List Nat) (n : Nat) (h : n < l.length) :
    (l.eraseIdx n).drop n = l.drop (n + 1) := by
  have hl : (l.take n).length = n := by
    simp only [List.length_take]
    omega
  rw [List.eraseIdx_eq_take_drop_succ, List.drop_append_eq_append_drop, hl,
    Nat.sub_self, List.drop_zero,
    List.drop_eq_nil_of_le (le_of_eq hl), List.nil_append]

theorem insertIdx_eraseIdx_self (l : List Nat) (n : Nat) (h : n < l.length) :
    (l.eraseIdx n).insertIdx n (l.getD n 0) = l := by
  induction l generalizing n with
  | nil => simp at h
  | cons x xs ih =>
    cases n with
    | zero => simp [List.eraseIdx]
    | succ m =>
      simp only [List.eraseIdx_cons_succ, List.insertIdx_succ_cons,
        List.getD_cons_succ]
      rw [ih m (by simpa using h)]

theorem length_eraseIdx_of_lt (l : List Nat) (n : Nat) (h : n < l.length) :
    (l.eraseIdx n).length = l.length - 1 := by
  rw [List.length_eraseIdx]
  simp [h]

/-! ### Partition-spec sums -/

theorem sum_toNat_of_nonneg (l : List Int) (h : ∀ a ∈ l, 0 ≤ a) :
    (((l.map Int.toNat).sum : Nat) : Int) = l.sum := by
  induction l with
  | nil => simp
  | cons x xs ih =>
    simp only [List.map_cons, List.sum_cons, Nat.cast_add]
    rw [Int.toNat_of_nonneg (h x (List.mem_cons_self x xs)),
      ih (fun a ha => h a (List.mem_cons_of_mem _ ha))]

theorem adimPrefix_le_total (addX : Bool) (l : List Int) (k : Nat) :
    adimPrefix addX l k ≤ (l.map (adimOf addX)).sum := by
  unfold adimPrefix
  conv_rhs => rw [← List.take_append_drop k l]
  rw [List.map_append, List.sum_append]
  omega

theorem adimPrefix_succ (addX : Bool) (l : List Int) (k : Nat) (a : Int)
    (h : l[k]? = some a) :
    adimPrefix addX l (k + 1) = adimPrefix addX l k + adimOf addX a := by
  unfold adimPrefix
  rw [List.take_succ, h]
  simp

theorem map_adimOf_total (addX : Bool) (l : List Int) (N : Nat)
    (hlen : l.length = N) (ch : Nat)
    (hpos : ∀ a ∈ l, 0 ≤ a)
    (hsum : (if addX then (N : Int) else l.sum) = (ch : Int)) :
    (l.map (adimOf addX)).sum = ch := by
  cases addX with
  | true =>
    rw [if_pos rfl] at hsum
    have hN : N = ch := by exact_mod_cast hsum
    have hmap : l.map (adimOf true) = List.replicate l.length 1 := by
      rw [← List.map_const]
      apply List.map_congr_left
      intro a _
      rfl
    rw [hmap, List.sum_replicate]
    simp [hlen, hN]
  | false =>
    rw [if_neg (by simp)] at hsum
    have : (((l.map Int.toNat).sum : Nat) : Int) = (ch : Int) := by
      rw [sum_toNat_of_nonneg l hpos]
      exact hsum
    have hmap : l.map (adimOf false) = l.map Int.toNat := by
      apply List.map_congr_left
      intro a _
      rfl
    rw [hmap]
    exact_mod_cast this

/-! ### Split outputs feed the concat copy -/

theorem getD_set_ne (l : List Nat) (n v i : Nat) (h : n ≠ i) :
    (l.set n v).getD i 0 = l.getD i 0 := by
  rw [List.getD_eq_getElem?_getD, List.getElem?_set_ne h,
    ← List.getD_eq_getElem?_getD]

theorem splitOutputs_take (input : Tensor) (ax b af : Nat) (addX : Bool) :
    ∀ (l : List Int) (off k : Nat),
      (splitOutputs input ax b af addX l off).take k =
        splitOutputs input ax b af addX (l.take k) off := by
  intro l
  induction l with
  | nil => intro off k; simp [splitOutputs]
  | cons a l ih =>
    intro off k
    cases k with
    | zero => rfl
    | succ m =>
      simp only [splitOutputs, List.take_succ_cons]
      rw [ih]

theorem adimSumT_splitOutputs (input : Tensor) (ax b af : Nat) (addX : Bool)
    (haxlt : ax < input.dims.length) :
    ∀ (l : List Int) (off : Nat),
      adimSumT addX ax (splitOutputs input ax b af addX l off) =
        (l.map (adimOf addX)).sum := by
  intro l
  induction l with
  | nil => intro off; simp [splitOutputs, adimSumT]
  | cons a l ih =>
    intro off
    simp only [splitOutputs, adimSumT, List.map_cons, List.sum_cons]
    have hrec := ih (off + (if addX then 1 else a.toNat) * af)
    simp only [adimSumT] at hrec
    rw [hrec]
    congr 1
    cases addX with
    | true => rfl
    | false =>
      show (input.dims.set ax a.toNat).getD ax 0 = a.toNat
      exact getD_set_self_of_lt _ _ _ haxlt

theorem mem_splitOutputs_dims (input : Tensor) (ax b af : Nat) (addX : Bool) :
    ∀ (l : List Int) (off : Nat) (t : Tensor),
      t ∈ splitOutputs input ax b af addX l off →
      ∃ a : Int, a ∈ l ∧ t.dims =
        (if addX then input.dims.eraseIdx ax else input.dims.set ax a.toNat) := by
  intro l
  induction l with
  | nil => intro off t h; simp [splitOutputs] at h
  | cons a l ih =>
    intro off t h
    simp only [splitOutputs, List.mem_cons] at h
    rcases h with h | h
    · exact ⟨a, List.mem_cons_self _ _, by rw [h]⟩
    · obtain ⟨a2, ha2, hd2⟩ := ih _ t h
      exact ⟨a2, List.mem_cons_of_mem _ ha2, hd2⟩

theorem splitOutputs_feed (X : Tensor) (ax : Nat) (addX : Bool) (l : List Int)
    (b af ch : Nat)
    (hb : b = (X.dims.take ax).prod) (haf : af = (X.dims.drop (ax + 1)).prod)
    (hch : ch = X.dim32 ax)
    (haxlt : ax < X.dims.length) (hX : X.data.length = X.dims.prod)
    (htot : (l.map (adimOf addX)).sum = ch) :
    ∀ (k : Nat) (t : Tensor),
      (splitOutputs X ax b af addX l 0)[k]? = some t →
      t.data.length = b * (adimT addX ax t * af) ∧
      ∀ (r c : Nat), r < b → c < adimT addX ax t * af →
        t.data[r * (adimT addX ax t * af) + c]? =
          X.data[r * (ch * af) +
            (0 + adimSumT addX ax
              ((splitOutputs X ax b af addX l 0).take k)) * af + c]? := by
  subst hb
  subst haf
  subst hch
  intro k t hk
  have hlens := length_splitOutputs X ax ((X.dims.take ax).prod)
    ((X.dims.drop (ax + 1)).prod) addX l 0
  have hklen : k < l.length := by
    by_contra hcon
    rw [List.getElem?_eq_none (by omega)] at hk
    cases hk
  have ha : l[k]? = some l[k] := List.getElem?_eq_getElem hklen
  have hchar := getElem?_splitOutputs X ax ((X.dims.take ax).prod)
    ((X.dims.drop (ax + 1)).prod) addX l 0 k (l[k]) ha
  rw [hchar] at hk
  injection hk with hk2
  subst hk2
  have hadim : adimT addX ax
      (⟨(if addX then X.dims.eraseIdx ax else X.dims.set ax (l[k]).toNat),
        copyMatrix ((X.dims.take ax).prod)
          (adimOf addX (l[k]) * (X.dims.drop (ax + 1)).prod) X.data
          (0 + adimPrefix addX l k * (X.dims.drop (ax + 1)).prod)
          (X.dim32 ax * (X.dims.drop (ax + 1)).prod)
          (List.replicate
            (if addX then X.dims.eraseIdx ax
             else X.dims.set ax (l[k]).toNat).prod 0)
          0 (adimOf addX (l[k]) * (X.dims.drop (ax + 1)).prod),
        X.dtype⟩ : Tensor) = adimOf addX (l[k]) := by
    cases addX with
    | true => rfl
    | false =>
      show (X.dims.set ax (l[k]).toNat).getD ax 0 = (l[k]).toNat
      exact getD_set_self_of_lt _ _ _ haxlt
  rw [hadim]
  have hprod : (if addX then X.dims.eraseIdx ax
      else X.dims.set ax (l[k]).toNat).prod =
      (X.dims.take ax).prod *
        (adimOf addX (l[k]) * (X.dims.drop (ax + 1)).prod) := by
    cases addX with
    | true =>
      rw [if_pos rfl, prod_eraseIdx_axis]
      show _ = _ * (1 * _)
      rw [Nat.one_mul]
    | false =>
      rw [if_neg (by simp), prod_set_axis _ _ _ haxlt]
      rfl
  have hple : adimPrefix addX l k + adimOf addX (l[k]) ≤ X.dim32 ax := by
    rw [← adimPrefix_succ addX l k (l[k]) ha]
    rw [← htot]
    exact adimPrefix_le_total addX l (k + 1)
  have hXlen : X.data.length =
      (X.dims.take ax).prod *
        (X.dim32 ax * (X.dims.drop (ax + 1)).prod) := by
    rw [hX, prod_at_axis X.dims ax haxlt]
    rfl
  have hrowbound : ∀ q, q < (X.dims.take ax).prod →
      0 + q * (adimOf addX (l[k]) * (X.dims.drop (ax + 1)).prod) +
        adimOf addX (l[k]) * (X.dims.drop (ax + 1)).prod ≤
        (List.replicate (if addX then X.dims.eraseIdx ax
          else X.dims.set ax (l[k]).toNat).prod (0 : Int)).length := by
    intro q hq
    rw [List.length_replicate, hprod]
    have h1 : (q + 1) * (adimOf addX (l[k]) * (X.dims.drop (ax + 1)).prod) ≤
        (X.dims.take ax).prod *
          (adimOf addX (l[k]) * (X.dims.drop (ax + 1)).prod) :=
      Nat.mul_le_mul_right _ (by omega)
    have h2 : (q + 1) * (adimOf addX (l[k]) * (X.dims.drop (ax + 1)).prod) =
        q * (adimOf addX (l[k]) * (X.dims.drop (ax + 1)).prod) +
          adimOf addX (l[k]) * (X.dims.drop (ax + 1)).prod := Nat.succ_mul _ _
    omega
  constructor
  · rw [length_copyMatrix _ _ _ _ _ _ _ _ hrowbound, List.length_replicate,
      hprod]
  · intro r c hr hc
    have hsrcb : ∀ q, q < (X.dims.take ax).prod →
        (0 + adimPrefix addX l k * (X.dims.drop (ax + 1)).prod) +
          q * (X.dim32 ax * (X.dims.drop (ax + 1)).prod) +
          adimOf addX (l[k]) * (X.dims.drop (ax + 1)).prod ≤
          X.data.length := by
      intro q hq
      rw [hXlen]
      have h1 : (adimPrefix addX l k + adimOf addX (l[k])) *
          (X.dims.drop (ax + 1)).prod ≤
          X.dim32 ax * (X.dims.drop (ax + 1)).prod :=
        Nat.mul_le_mul_right _ hple
      have h2 : (q + 1) * (X.dim32 ax * (X.dims.drop (ax + 1)).prod) ≤
          (X.dims.take ax).prod * (X.dim32 ax * (X.dims.drop (ax + 1)).prod) :=
        Nat.mul_le_mul_right _ (by omega)
      have h3 : (q + 1) * (X.dim32 ax * (X.dims.drop (ax + 1)).prod) =
          q * (X.dim32 ax * (X.dims.drop (ax + 1)).prod) +
            X.dim32 ax * (X.dims.drop (ax + 1)).prod := Nat.succ_mul _ _
      have h4 : (adimPrefix addX l k + adimOf addX (l[k])) *
          (X.dims.drop (ax + 1)).prod =
          adimPrefix addX l k * (X.dims.drop (ax + 1)).prod +
            adimOf addX (l[k]) * (X.dims.drop (ax + 1)).prod := Nat.add_mul _ _ _
      omega
    have hgrid := getElem?_copyMatrix_grid ((X.dims.take ax).prod)
      (adimOf addX (l[k]) * (X.dims.drop (ax + 1)).prod)
      (adimOf addX (l[k]) * (X.dims.drop (ax + 1)).prod) X.data
      (0 + adimPrefix addX l k * (X.dims.drop (ax + 1)).prod)
      (X.dim32 ax * (X.dims.drop (ax + 1)).prod)
      (List.replicate (if addX then X.dims.eraseIdx ax
        else X.dims.set ax (l[k]).toNat).prod 0) 0
      (by omega)
      (by rw [List.length_replicate, hprod])
      hsrcb r c hr hc
    rw [hgrid, if_pos (by omega)]
    have hsumtake : adimSumT addX ax
        ((splitOutputs X ax ((X.dims.take ax).prod)
          ((X.dims.drop (ax + 1)).prod) addX l 0).take k) =
        adimPrefix addX l k := by
      rw [splitOutputs_take, adimSumT_splitOutputs _ _ _ _ _ haxlt]
      rfl
    rw [hsumtake]
    simp only [Nat.zero_add, Nat.sub_zero]
    congr 1
    omega

/-! ### Error characterization of the concat dimension loop -/

theorem checkDimAt_ok_implies (z : Tensor) (i dim : Nat) :
    ∀ (ts : List Tensor) (j : Nat), checkDimAt z i dim ts j = .ok () →
      ∀ t ∈ ts, dim = t.dim32 i := by
  intro ts
  induction ts with
  | nil => intro j _ t ht; simp at ht
  | cons t ts ih =>
    intro j h u hu
    by_cases hd : dim = t.dim32 i
    · rcases List.mem_cons.mp hu with hu | hu
      · subst hu; exact hd
      · rw [checkDimAt, if_pos hd] at h
        exact ih (j + 1) h u hu
    · rw [checkDimAt, if_neg hd] at h
      cases h

theorem checkDimAt_error (z : Tensor) (i dim : Nat) :
    ∀ (ts : List Tensor) (j : Nat) (e : Err), checkDimAt z i dim ts j = .error e →
      ∃ (k : Nat) (t : Tensor), ts[k]? = some t ∧
        e = .shapeMismatch dim (t.dim32 i) i (j + k) z.dims t.dims ∧
        dim ≠ t.dim32 i := by
  intro ts
  induction ts with
  | nil => intro j e h; cases h
  | cons t ts ih =>
    intro j e h
    by_cases hd : dim = t.dim32 i
    · rw [checkDimAt, if_pos hd] at h
      obtain ⟨k, u, hk, he, hne⟩ := ih (j + 1) e h
      exact ⟨k + 1, u, by simpa using hk, by rw [he]; congr 1; omega, hne⟩
    · rw [checkDimAt, if_neg hd] at h
      injection h with h2
      exact ⟨0, t, by simp, by rw [Nat.add_zero, ← h2], hd⟩

theorem concatDimLoop_error (z : Tensor) (rest : List Tensor) (ax : Nat)
    (addX : Bool) :
    ∀ (is : List Nat) (b a : Nat) (e : Err),
      concatDimLoop z rest ax addX is b a = .error e →
      ∃ (i j : Nat) (t : Tensor), i ∈ is ∧ ¬ (i = ax ∧ ¬ addX) ∧
        rest[j]? = some t ∧
        e = .shapeMismatch (z.dim32 i) (t.dim32 i) i (1 + j) z.dims t.dims ∧
        z.dim32 i ≠ t.dim32 i := by
  intro is
  induction is with
  | nil => intro b a e h; cases h
  | cons i is ih =>
    intro b a e h
    by_cases hsk : i = ax ∧ ¬ addX
    · rw [concatDimLoop, if_pos hsk] at h
      obtain ⟨i2, j, t, hmem, hns, hj, he, hne⟩ := ih _ _ e h
      exact ⟨i2, j, t, List.mem_cons_of_mem _ hmem, hns, hj, he, hne⟩
    · rw [concatDimLoop, if_neg hsk] at h
      dsimp only [] at h
      cases hc : checkDimAt z i (z.dim32 i) rest 1 with
      | error e0 =>
        rw [hc] at h
        injection h with h2
        subst h2
        obtain ⟨k, t, hk, he, hne⟩ := checkDimAt_error z i (z.dim32 i) rest 1 e0 hc
        exact ⟨i, k, t, List.mem_cons_self _ _, hsk, hk, he, hne⟩
      | ok u =>
        rw [hc] at h
        obtain ⟨i2, j, t, hmem, hns, hj, he, hne⟩ := ih _ _ e h
        exact ⟨i2, j, t, List.mem_cons_of_mem _ hmem, hns, hj, he, hne⟩

theorem concatDimLoop_ok_implies (z : Tensor) (rest : List Tensor) (ax : Nat)
    (addX : Bool) :
    ∀ (is : List Nat) (b a : Nat) (ba : Nat × Nat),
      concatDimLoop z rest ax addX is b a = .ok ba →
      ∀ i ∈ is, ¬ (i = ax ∧ ¬ addX) → ∀ t ∈ rest, t.dim32 i = z.dim32 i := by
  intro is
  induction is with
  | nil => intro b a ba _ i hi; simp at hi
  | cons i0 is ih =>
    intro b a ba h i hi hns t ht
    by_cases hsk : i0 = ax ∧ ¬ addX
    · rw [concatDimLoop, if_pos hsk] at h
      rcases List.mem_cons.mp hi with hi | hi
      · subst hi; exact absurd hsk hns
      · exact ih _ _ ba h i hi hns t ht
    · rw [concatDimLoop, if_neg hsk] at h
      dsimp only [] at h
      cases hc : checkDimAt z i0 (z.dim32 i0) rest 1 with
      | error e0 => rw [hc] at h; cases h
      | ok u =>
        rw [hc] at h
        rcases List.mem_cons.mp hi with hi | hi
        · subst hi
          exact (checkDimAt_ok_implies z i (z.dim32 i) rest 1
            (by rw [hc]) t ht).symm
        · exact ih _ _ ba h i hi hns t ht

/-! ### Add-axis helpers -/

theorem adimSumT_true (ax : Nat) (ts : List Tensor) :
    adimSumT true ax ts = ts.length := by
  induction ts with
  | nil => rfl
  | cons t ts ih =>
    simp only [adimSumT, List.map_cons, List.sum_cons] at ih ⊢
    rw [ih]
    show 1 + ts.length = (t :: ts).length
    simp only [List.length_cons]
    omega

theorem map_adimT_true_ofNat (ax : Nat) (ts : List Tensor) :
    (ts.map (adimT true ax)).map Int.ofNat = List.replicate ts.length 1 := by
  induction ts with
  | nil => rfl
  | cons t ts ih =>
    simp only [List.map_cons, List.length_cons, List.replicate_succ]
    rw [ih]
    rfl

theorem splitOutputs_true_congr (input : Tensor) (ax b af : Nat) :
    ∀ (l1 l2 : List Int) (off : Nat), l1.length = l2.length →
      splitOutputs input ax b af true l1 off =
        splitOutputs input ax b af true l2 off := by
  intro l1
  induction l1 with
  | nil =>
    intro l2 off h
    cases l2 with
    | nil => rfl
    | cons x xs => simp at h
  | cons a l1 ih =>
    intro l2 off h
    cases l2 with
    | nil => simp at h
    | cons a2 l2 =>
      simp only [splitOutputs]
      rw [ih l2 _ (by simpa using h)]
      simp

/-! ### The split-by-lengths output loop -/

theorem length_splitByLenOutputs (input : Tensor) (ax b af : Nat)
    (axis_data : List Int) (gs : Nat) :
    ∀ (cnt i off : Nat),
      (splitByLenOutputs input ax b af axis_data gs cnt i off).length = cnt := by
  intro cnt
  induction cnt with
  | zero => intro i off; rfl
  | succ m ih =>
    intro i off
    simp only [splitByLenOutputs, List.length_cons, ih]

theorem getElem?_splitByLenOutputs_dims (input : Tensor) (ax b af : Nat)
    (axis_data : List Int) (gs : Nat) :
    ∀ (cnt i off k : Nat), k < cnt →
      ∃ t, (splitByLenOutputs input ax b af axis_data gs cnt i off)[k]? =
        some t ∧
        t.dims = input.dims.set ax
          ((((axis_data.drop (gs * (i + k))).take gs).sum).toNat) := by
  intro cnt
  induction cnt with
  | zero => intro i off k hk; omega
  | succ m ih =>
    intro i off k hk
    cases k with
    | zero =>
      simp only [splitByLenOutputs]
      exact ⟨_, List.getElem?_cons_zero, rfl⟩
    | succ k2 =>
      obtain ⟨t, ht, hd⟩ := ih (i + 1) (off +
        ((((axis_data.drop (gs * i)).take gs).sum).toNat) * af) k2 (by omega)
      refine ⟨t, ?_, ?_⟩
      · simp only [splitByLenOutputs, List.getElem?_cons_succ]
        exact ht
      · rw [hd]
        congr 3
        ring_nf

/-! ### Claim theorems -/

/-- C1: for every tensor `X` (with a consistent buffer), every configuration
and partition spec accepted by `SplitOp` (non-negative extents), running
`SplitOp` and then `ConcatOp` on its outputs with the same axis and add-axis
setting reproduces `X` bit-for-bit (shape, buffer and element type), for any
prior state of the concat outputs. -/
theorem claim_C1_split_concat_roundtrip (cfg : SplitConfig) (X : Tensor)
    (sIn : Option Tensor) (N : Nat) (y0 s0 : Tensor)
    (o0 : Tensor) (orest : List Tensor)
    (hX : X.data.length = X.dims.prod)
    (hpos : ∀ a ∈ cfg.split, 0 ≤ a)
    (hpos2 : ∀ st, sIn = some st → ∀ a ∈ st.data, 0 ≤ a)
    (hrun : SplitOp.run cfg X sIn N = .ok (o0 :: orest)) :
    ∃ S, ConcatOp.run ⟨cfg.axis, cfg.addAxis⟩ o0 orest y0 s0 =
      (.ok (), X, S) := by
  obtain ⟨ax, l, hcan, haxlt, hlen, hform, hsum, houts⟩ :=
    SplitOp.run_ok_inv cfg X sIn N (o0 :: orest) hrun
  have hlpos : ∀ a ∈ l, 0 ≤ a := by
    rcases hform with h | h | ⟨st, hst, h⟩
    · subst h
      intro a hha
      have := List.eq_of_mem_replicate hha
      subst this
      exact Int.natCast_nonneg _
    · subst h
      exact hpos
    · subst h
      exact hpos2 st hst
  have htot : (l.map (adimOf cfg.addAxis)).sum = X.dim32 ax :=
    map_adimOf_total cfg.addAxis l N hlen (X.dim32 ax) hlpos hsum
  have h0 : (splitOutputs X ax ((X.dims.take ax).prod)
      ((X.dims.drop (ax + 1)).prod) cfg.addAxis l 0)[0]? = some o0 := by
    rw [← houts]
    simp
  have hmem0 : o0 ∈ splitOutputs X ax ((X.dims.take ax).prod)
      ((X.dims.drop (ax + 1)).prod) cfg.addAxis l 0 := by
    rw [← houts]
    exact List.mem_cons_self _ _
  obtain ⟨a0, _, hd0⟩ := mem_splitOutputs_dims X ax ((X.dims.take ax).prod)
    ((X.dims.drop (ax + 1)).prod) cfg.addAxis l 0 o0 hmem0
  have haxlt2 : ax < X.dims.length := haxlt
  have hndim : o0.ndim + (if cfg.addAxis then 1 else 0) = X.ndim := by
    show o0.dims.length + _ = X.dims.length
    rw [hd0]
    cases cfg.addAxis with
    | true =>
      rw [if_pos rfl, if_pos rfl, length_eraseIdx_of_lt X.dims ax haxlt2]
      omega
    | false =>
      rw [if_neg (by simp), if_neg (by simp), List.length_set]
      omega
  have hax2 : canonical_axis_index_ cfg.axis
      (o0.ndim + (if cfg.addAxis then 1 else 0)) = .ok ax := by
    rw [hndim]
    exact hcan
  have hdtype : ∀ t, t ∈ splitOutputs X ax ((X.dims.take ax).prod)
      ((X.dims.drop (ax + 1)).prod) cfg.addAxis l 0 → t.dtype = X.dtype :=
    fun t ht => mem_splitOutputs_dtype X ax _ _ cfg.addAxis l 0 t ht
  have hty : ∀ t ∈ orest, t.dtype = o0.dtype := by
    intro t ht
    rw [hdtype t (by rw [← houts]; exact List.mem_cons_of_mem _ ht),
      hdtype o0 hmem0]
  have hcompat : ∀ (i : Nat) (t : Tensor), t ∈ orest →
      (i = ax ∧ ¬ cfg.addAxis) ∨ t.dim32 i = o0.dim32 i := by
    intro i t ht
    obtain ⟨at1, _, hdt⟩ := mem_splitOutputs_dims X ax ((X.dims.take ax).prod)
      ((X.dims.drop (ax + 1)).prod) cfg.addAxis l 0 t
      (by rw [← houts]; exact List.mem_cons_of_mem _ ht)
    cases haddX : cfg.addAxis with
    | true =>
      right
      rw [haddX] at hdt hd0
      rw [if_pos rfl] at hdt hd0
      show t.dims.getD i 0 = o0.dims.getD i 0
      rw [hdt, hd0]
    | false =>
      rw [haddX] at hdt hd0
      rw [if_neg (by simp)] at hdt hd0
      by_cases hi : i = ax
      · left
        exact ⟨hi, by simp⟩
      · right
        show t.dims.getD i 0 = o0.dims.getD i 0
        rw [hdt, hd0, getD_set_ne _ _ _ _ (fun he => hi he.symm),
          getD_set_ne _ _ _ _ (fun he => hi he.symm)]
  have hrunok := ConcatOp.run_ok ⟨cfg.axis, cfg.addAxis⟩ o0 orest y0 s0 ax
    hax2 hty hcompat
  refine ⟨concatResultS cfg.addAxis ax o0 orest, ?_⟩
  rw [hrunok]
  have hsumT : adimSumT cfg.addAxis ax (o0 :: orest) = X.dim32 ax := by
    rw [houts, adimSumT_splitOutputs X ax _ _ cfg.addAxis haxlt, htot]
  have hB : (o0.dims.take ax).prod = (X.dims.take ax).prod := by
    rw [hd0]
    cases cfg.addAxis with
    | true => rw [if_pos rfl, take_eraseIdx_self X.dims ax haxlt]
    | false => rw [if_neg (by simp), take_set_self]
  have hA : (o0.dims.drop (ax + (if cfg.addAxis then 0 else 1))).prod =
      (X.dims.drop (ax + 1)).prod := by
    rw [hd0]
    cases cfg.addAxis with
    | true =>
      rw [if_pos rfl, if_pos rfl, Nat.add_zero, drop_eraseIdx_self X.dims ax haxlt]
    | false =>
      rw [if_neg (by simp), if_neg (by simp), drop_succ_set_self]
  have hodims : concatOutputDims cfg.addAxis ax o0 orest = X.dims := by
    unfold concatOutputDims
    rw [hsumT, hd0]
    cases cfg.addAxis with
    | true =>
      rw [if_pos rfl, if_pos rfl]
      exact insertIdx_eraseIdx_self X.dims ax haxlt
    | false =>
      rw [if_neg (by simp), if_neg (by simp), List.set_set]
      exact set_getD_self X.dims ax haxlt
  have hXprod : X.dims.prod =
      (X.dims.take ax).prod * (X.dim32 ax * (X.dims.drop (ax + 1)).prod) :=
    prod_at_axis X.dims ax haxlt
  have hdata : concatCopy ax cfg.addAxis ((X.dims.take ax).prod)
      ((X.dims.drop (ax + 1)).prod) (X.dim32 ax)
      (splitOutputs X ax ((X.dims.take ax).prod)
        ((X.dims.drop (ax + 1)).prod) cfg.addAxis l 0)
      (List.replicate X.dims.prod 0) 0 = X.data := by
    have hblen : (List.replicate X.dims.prod (0 : Int)).length =
        (X.dims.take ax).prod * (X.dim32 ax * (X.dims.drop (ax + 1)).prod) := by
      rw [List.length_replicate, hXprod]
    have hts := splitOutputs_feed X ax cfg.addAxis l
      ((X.dims.take ax).prod) ((X.dims.drop (ax + 1)).prod) (X.dim32 ax)
      rfl rfl rfl haxlt hX htot
    have hoffz : (0 : Nat) + adimSumT cfg.addAxis ax
        (splitOutputs X ax ((X.dims.take ax).prod)
          ((X.dims.drop (ax + 1)).prod) cfg.addAxis l 0) ≤ X.dim32 ax := by
      rw [Nat.zero_add, adimSumT_splitOutputs X ax _ _ cfg.addAxis haxlt, htot]
    have hcc := getElem?_concatCopy ax cfg.addAxis ((X.dims.take ax).prod)
      ((X.dims.drop (ax + 1)).prod) (X.dim32 ax) X.data
      (splitOutputs X ax ((X.dims.take ax).prod)
        ((X.dims.drop (ax + 1)).prod) cfg.addAxis l 0)
      (List.replicate X.dims.prod 0) 0 hblen hoffz hts
    rw [Nat.zero_mul] at hcc
    have hlencc : (concatCopy ax cfg.addAxis ((X.dims.take ax).prod)
        ((X.dims.drop (ax + 1)).prod) (X.dim32 ax)
        (splitOutputs X ax ((X.dims.take ax).prod)
          ((X.dims.drop (ax + 1)).prod) cfg.addAxis l 0)
        (List.replicate X.dims.prod 0) 0).length =
        (X.dims.take ax).prod * (X.dim32 ax * (X.dims.drop (ax + 1)).prod) := by
      have := length_concatCopy ax cfg.addAxis ((X.dims.take ax).prod)
        ((X.dims.drop (ax + 1)).prod) (X.dim32 ax)
        (splitOutputs X ax ((X.dims.take ax).prod)
          ((X.dims.drop (ax + 1)).prod) cfg.addAxis l 0)
        (List.replicate X.dims.prod 0) 0 hblen hoffz
      rw [Nat.zero_mul] at this
      exact this
    apply List.ext_getElem?
    intro n
    by_cases hn : n < (X.dims.take ax).prod *
        (X.dim32 ax * (X.dims.drop (ax + 1)).prod)
    · have hWpos : 0 < X.dim32 ax * (X.dims.drop (ax + 1)).prod := by
        rcases Nat.eq_zero_or_pos (X.dim32 ax * (X.dims.drop (ax + 1)).prod)
          with h | h
        · rw [h, Nat.mul_zero] at hn
          omega
        · exact h
      have hc : n % (X.dim32 ax * (X.dims.drop (ax + 1)).prod) <
          X.dim32 ax * (X.dims.drop (ax + 1)).prod := Nat.mod_lt _ hWpos
      have hr : n / (X.dim32 ax * (X.dims.drop (ax + 1)).prod) <
          (X.dims.take ax).prod := by
        rw [Nat.div_lt_iff_lt_mul hWpos]
        have hcomm2 : (X.dims.take ax).prod *
            (X.dim32 ax * (X.dims.drop (ax + 1)).prod) =
            X.dim32 ax * (X.dims.drop (ax + 1)).prod *
              (X.dims.take ax).prod := Nat.mul_comm _ _
        omega
      have hnrw : n / (X.dim32 ax * (X.dims.drop (ax + 1)).prod) *
          (X.dim32 ax * (X.dims.drop (ax + 1)).prod) +
          n % (X.dim32 ax * (X.dims.drop (ax + 1)).prod) = n := by
        have := Nat.div_add_mod n (X.dim32 ax * (X.dims.drop (ax + 1)).prod)
        have hcomm : X.dim32 ax * (X.dims.drop (ax + 1)).prod *
            (n / (X.dim32 ax * (X.dims.drop (ax + 1)).prod)) =
            n / (X.dim32 ax * (X.dims.drop (ax + 1)).prod) *
              (X.dim32 ax * (X.dims.drop (ax + 1)).prod) := Nat.mul_comm _ _
        omega
      have := hcc (n / (X.dim32 ax * (X.dims.drop (ax + 1)).prod))
        (n % (X.dim32 ax * (X.dims.drop (ax + 1)).prod)) hr hc
      rw [hnrw] at this
      rw [this]
      rw [if_pos ?_]
      constructor
      · omega
      · rw [Nat.zero_add, adimSumT_splitOutputs X ax _ _ cfg.addAxis haxlt,
          htot]
        omega
    · rw [List.getElem?_eq_none (by omega : (concatCopy ax cfg.addAxis
          ((X.dims.take ax).prod) ((X.dims.drop (ax + 1)).prod) (X.dim32 ax)
          (splitOutputs X ax ((X.dims.take ax).prod)
            ((X.dims.drop (ax + 1)).prod) cfg.addAxis l 0)
          (List.replicate X.dims.prod 0) 0).length ≤ n),
        List.getElem?_eq_none (by omega : X.data.length ≤ n)]
  have hY : concatResultY ⟨cfg.axis, cfg.addAxis⟩ o0 orest ax = X := by
    unfold concatResultY
    show (⟨concatOutputDims cfg.addAxis ax o0 orest, _, o0.dtype⟩ : Tensor) = X
    rw [hodims, hB, hA, hsumT, houts, hdtype o0 hmem0, hdata]
  rw [hY]

/-- C8: axis resolution maps a negative raw axis to `rank + rawAxis` and a
non-negative one to itself, so resolving `-1` and resolving `rank - 1` give
identical results (also through the range-checked resolver). -/
theorem claim_C8_negative_axis_resolution :
    (∀ (rank : Nat) (axis : Int),
      (axis < 0 → resolveAxis rank axis = (rank : Int) + axis) ∧
      (0 ≤ axis → resolveAxis rank axis = axis)) ∧
    (∀ rank : Nat, canonical_axis_index_ (-1) rank =
      canonical_axis_index_ ((rank : Int) - 1) rank) := by
  constructor
  · intro rank axis
    constructor
    · intro h
      unfold resolveAxis
      rw [if_neg (by omega)]
    · intro h
      unfold resolveAxis
      rw [if_pos h]
  · intro rank
    rcases Nat.eq_zero_or_pos rank with h | h
    · subst h
      rfl
    · have e1 : resolveAxis rank (-1) = (rank : Int) - 1 := by
        unfold resolveAxis
        rw [if_neg (by omega)]
        ring
      have e2 : resolveAxis rank ((rank : Int) - 1) = (rank : Int) - 1 := by
        unfold resolveAxis
        rw [if_pos (by omega)]
      simp only [canonical_axis_index_]
      rw [e1, e2]

/-- C2 counterexample: with `add_axis` set, an input of rank 2 and raw axis 2
— which the claim declares accepted, since `2` lies in `[0, rank + 1)` — the
split run fails with `AxisOutOfRange`. -/
theorem claim_C2_counterexample :
    SplitOp.run ⟨2, true, []⟩ ⟨[2, 2], [0, 0, 0, 0], 0⟩ none 2 =
      .error .axisOutOfRange ∧
    (0 ≤ resolveAxis 2 2 ∧ resolveAxis 2 2 < (2 : Int) + 1) := by
  constructor
  · rfl
  · decide

/-- C2 (amended): `SplitOp` resolves the canonical axis against the input's
rank with NO add-axis adjustment — in both modes the run fails with
`AxisOutOfRange` exactly when the resolved axis is outside `[0, rank)`; only
`ConcatOp` widens the range to `[0, rank + 1)` under add-axis. -/
theorem claim_C2_split_axis_range (cfg : SplitConfig) (X : Tensor)
    (sIn : Option Tensor) (N : Nat) :
    SplitOp.run cfg X sIn N = .error .axisOutOfRange ↔
      ¬ (0 ≤ resolveAxis X.ndim cfg.axis ∧
         resolveAxis X.ndim cfg.axis < (X.ndim : Int)) := by
  unfold SplitOp.run
  by_cases hin : 0 ≤ resolveAxis X.ndim cfg.axis ∧
      resolveAxis X.ndim cfg.axis < (X.ndim : Int)
  · have hok : canonical_axis_index_ cfg.axis X.ndim =
        .ok (resolveAxis X.ndim cfg.axis).toNat := by
      simp only [canonical_axis_index_]
      rw [if_pos hin]
    rw [hok]
    dsimp only []
    rw [if_neg (by omega : ¬ ¬ (resolveAxis X.ndim cfg.axis).toNat < X.ndim)]
    constructor
    · intro h
      exfalso
      cases sIn with
      | some st =>
        dsimp only [] at h
        by_cases h1 : cfg.split.length ≠ 0
        · rw [if_pos h1] at h; cases h
        · rw [if_neg h1] at h
          by_cases h2 : st.data.length ≠ N
          · rw [if_pos h2] at h; cases h
          · rw [if_neg h2] at h
            dsimp only [] at h
            by_cases h3 : (if cfg.addAxis then (N : Int) else st.data.sum) ≠
                (X.dim32 (resolveAxis X.ndim cfg.axis).toNat : Int)
            · rw [if_pos h3] at h; cases h
            · rw [if_neg h3] at h; cases h
      | none =>
        dsimp only [] at h
        by_cases h1 : cfg.split.length = 0
        · rw [if_pos h1] at h
          by_cases h2 : X.dim32 (resolveAxis X.ndim cfg.axis).toNat % N ≠ 0
          · rw [if_pos h2] at h; cases h
          · rw [if_neg h2] at h
            dsimp only [] at h
            by_cases h3 : (if cfg.addAxis then (N : Int)
                else (List.replicate N
                  ((X.dim32 (resolveAxis X.ndim cfg.axis).toNat / N : Nat) :
                    Int)).sum) ≠
                (X.dim32 (resolveAxis X.ndim cfg.axis).toNat : Int)
            · rw [if_pos h3] at h; cases h
            · rw [if_neg h3] at h; cases h
        · rw [if_neg h1] at h
          by_cases h2 : cfg.split.length ≠ N
          · rw [if_pos h2] at h; cases h
          · rw [if_neg h2] at h
            dsimp only [] at h
            by_cases h3 : (if cfg.addAxis then (N : Int) else cfg.split.sum) ≠
                (X.dim32 (resolveAxis X.ndim cfg.axis).toNat : Int)
            · rw [if_pos h3] at h; cases h
            · rw [if_neg h3] at h; cases h
    · intro h
      exact absurd hin h
  · have herr : canonical_axis_index_ cfg.axis X.ndim =
        .error .axisOutOfRange := by
      simp only [canonical_axis_index_]
      rw [if_neg hin]
    rw [herr]
    simp [hin]

/-- C9: mutually exclusive configuration forms are rejected with
`ConflictingConfiguration`: the `axis` and `order` arguments together fail at
construction for all three operators, and explicit split sizes together with
a ratio-tensor input fail the split run (once the axis resolves). -/
theorem claim_C9_conflicting_configuration :
    (∀ args : OperatorArgs, args.axis.isSome → args.order.isSome →
      SplitOp.construct args = .error .conflictingConfiguration ∧
      SplitByLengthsOp.construct args = .error .conflictingConfiguration ∧
      ConcatOp.construct args = .error .conflictingConfiguration) ∧
    (∀ (cfg : SplitConfig) (X : Tensor) (st : Tensor) (N : Nat) (ax : Nat),
      canonical_axis_index_ cfg.axis X.ndim = .ok ax →
      cfg.split ≠ [] →
      SplitOp.run cfg X (some st) N = .error .conflictingConfiguration) := by
  constructor
  · intro args h1 h2
    refine ⟨?_, ?_, ?_⟩
    · unfold SplitOp.construct
      rw [if_pos ⟨h1, h2⟩]
    · unfold SplitByLengthsOp.construct
      rw [if_pos ⟨h1, h2⟩]
    · unfold ConcatOp.construct
      rw [if_pos ⟨h1, h2⟩]
  · intro cfg X st N ax hok hne
    unfold SplitOp.run
    rw [hok]
    dsimp only []
    rw [if_neg (by
      have := canonical_axis_index_ok_lt _ _ _ hok
      omega)]
    rw [if_pos (fun h => hne (List.length_eq_zero.mp h))]

/-- C3 counterexample: a concat call that fails with `TypeMismatch`
nevertheless leaves the axis-extent record side output modified — it has been
resized from shape `[1]` to shape `[2]` before validation ran. -/
theorem claim_C3_counterexample :
    (ConcatOp.run ⟨0, false⟩ ⟨[2], [0, 0], 0⟩ [⟨[2], [0, 0], 1⟩] ⟨[], [], 0⟩
      ⟨[5], [7], 0⟩).1 = .error (.typeMismatch 1) ∧
    (ConcatOp.run ⟨0, false⟩ ⟨[2], [0, 0], 0⟩ [⟨[2], [0, 0], 1⟩] ⟨[], [], 0⟩
      ⟨[5], [7], 0⟩).2.2 ≠ (⟨[5], [7], 0⟩ : Tensor) := by
  constructor
  · rfl
  · intro h
    cases h

/-- C3 (amended): when a concat run returns failure, the concatenated output
is unchanged, but the axis-extent record side output has already been resized
to a 1-D int tensor of length `InputSize` (shape `[N]`, buffer reallocated)
before any validation ran. -/
theorem ConcatOp.run_failure_cases (cfg : ConcatConfig) (z : Tensor)
    (rest : List Tensor) (y0 s0 : Tensor) :
    (∃ e, ConcatOp.run cfg z rest y0 s0 = (.error e, y0,
      ⟨[1 + rest.length], resizeBuffer s0.data (1 + rest.length),
        int32Dtype⟩)) ∨
    (∃ Y S, ConcatOp.run cfg z rest y0 s0 = (.ok (), Y, S)) := by
  unfold ConcatOp.run
  dsimp only []
  cases canonical_axis_index_ cfg.axis
      (z.ndim + if cfg.addAxis then 1 else 0) with
  | error e2 => exact Or.inl ⟨e2, rfl⟩
  | ok ax =>
    dsimp only []
    by_cases h2 : ¬ ax < z.ndim + (if cfg.addAxis then 1 else 0)
    · rw [if_pos h2]
      exact Or.inl ⟨_, rfl⟩
    · rw [if_neg h2]
      cases checkTypes z rest 1 with
      | error e3 => exact Or.inl ⟨e3, rfl⟩
      | ok u =>
        cases concatDimLoop z rest ax cfg.addAxis (List.range z.ndim) 1 1 with
        | error e4 => exact Or.inl ⟨e4, rfl⟩
        | ok ba => exact Or.inr ⟨_, _, rfl⟩

/-- C3 (amended): when a concat run returns failure, the concatenated output
is unchanged, but the axis-extent record side output has already been resized
to a 1-D int tensor of length `InputSize` (shape `[N]`, buffer reallocated)
before any validation ran. -/
theorem claim_C3_failure_output_states (cfg : ConcatConfig) (z : Tensor)
    (rest : List Tensor) (y0 s0 : Tensor) (e : Err)
    (h : (ConcatOp.run cfg z rest y0 s0).1 = .error e) :
    (ConcatOp.run cfg z rest y0 s0).2.1 = y0 ∧
    (ConcatOp.run cfg z rest y0 s0).2.2 =
      ⟨[1 + rest.length], resizeBuffer s0.data (1 + rest.length),
        int32Dtype⟩ := by
  rcases ConcatOp.run_failure_cases cfg z rest y0 s0 with ⟨e2, heq⟩ |
    ⟨Y, S, heq⟩
  · rw [heq]
    exact ⟨rfl, rfl⟩
  · rw [heq] at h
    cases h

/-- C4: with matching element types and a resolvable axis, the concat run
fails with `ShapeMismatch` exactly when some input disagrees with input 0 at
a checked dimension (every dimension except the canonical axis, or every
dimension under add-axis), and every such error reports the two conflicting
extents, the dimension, the offending input index, and the two full
shapes. -/
theorem claim_C4_shape_mismatch (cfg : ConcatConfig) (z : Tensor)
    (rest : List Tensor) (y0 s0 : Tensor) (ax : Nat)
    (hax : canonical_axis_index_ cfg.axis
      (z.ndim + (if cfg.addAxis then 1 else 0)) = .ok ax)
    (hty : ∀ t ∈ rest, t.dtype = z.dtype) :
    ((∃ e, (ConcatOp.run cfg z rest y0 s0).1 = .error e ∧
        ∃ d dj i j s1 s2, e = .shapeMismatch d dj i j s1 s2) ↔
      (∃ (i : Nat) (t : Tensor), i < z.ndim ∧ ¬ (i = ax ∧ ¬ cfg.addAxis) ∧
        t ∈ rest ∧ t.dim32 i ≠ z.dim32 i)) ∧
    (∀ d dj i j s1 s2,
      (ConcatOp.run cfg z rest y0 s0).1 =
        .error (.shapeMismatch d dj i j s1 s2) →
      ∃ (k : Nat) (t : Tensor), rest[k]? = some t ∧ j = 1 + k ∧ i < z.ndim ∧
        ¬ (i = ax ∧ ¬ cfg.addAxis) ∧ d = z.dim32 i ∧ dj = t.dim32 i ∧
        d ≠ dj ∧ s1 = z.dims ∧ s2 = t.dims) := by
  have hlt : ax < z.ndim + (if cfg.addAxis then 1 else 0) :=
    canonical_axis_index_ok_lt _ _ _ hax
  have hred : (ConcatOp.run cfg z rest y0 s0).1 =
      (match concatDimLoop z rest ax cfg.addAxis (List.range z.ndim) 1 1 with
       | .error e => (.error e : Except Err Unit)
       | .ok _ => .ok ()) := by
    unfold ConcatOp.run
    dsimp only []
    rw [hax]
    dsimp only []
    rw [if_neg (by omega : ¬ ¬ ax < z.ndim + (if cfg.addAxis then 1 else 0))]
    rw [checkTypes_ok z rest 1 hty]
    cases hd : concatDimLoop z rest ax cfg.addAxis (List.range z.ndim) 1 1 with
    | error e => rfl
    | ok ba => rfl
  constructor
  · constructor
    · rintro ⟨e, he, d, dj, i, j, s1, s2, hpay⟩
      rw [hred] at he
      cases hd : concatDimLoop z rest ax cfg.addAxis
          (List.range z.ndim) 1 1 with
      | error e0 =>
        rw [hd] at he
        dsimp only [] at he
        injection he with he2
        subst he2
        obtain ⟨i2, j2, t, hmem, hns, hj, hpay2, hne⟩ :=
          concatDimLoop_error z rest ax cfg.addAxis _ _ _ e0 hd
        exact ⟨i2, t, List.mem_range.mp hmem, hns,
          List.getElem?_mem hj, fun hh => hne hh.symm⟩
      | ok ba =>
        rw [hd] at he
        dsimp only [] at he
        cases he
    · rintro ⟨i, t, hi, hns, ht, hne⟩
      cases hd : concatDimLoop z rest ax cfg.addAxis
          (List.range z.ndim) 1 1 with
      | error e0 =>
        obtain ⟨i2, j2, t2, hmem, hns2, hj2, hpay2, hne2⟩ :=
          concatDimLoop_error z rest ax cfg.addAxis _ _ _ e0 hd
        refine ⟨e0, ?_, _, _, _, _, _, _, hpay2⟩
        rw [hred, hd]
      | ok ba =>
        exfalso
        exact hne (concatDimLoop_ok_implies z rest ax cfg.addAxis _ _ _ _ hd i
          (List.mem_range.mpr hi) hns t ht)
  · intro d dj i j s1 s2 hres
    rw [hred] at hres
    cases hd : concatDimLoop z rest ax cfg.addAxis
        (List.range z.ndim) 1 1 with
    | error e0 =>
      rw [hd] at hres
      dsimp only [] at hres
      injection hres with hres2
      obtain ⟨i2, j2, t, hmem, hns, hj, hpay2, hne⟩ :=
        concatDimLoop_error z rest ax cfg.addAxis _ _ _ e0 hd
      rw [hpay2] at hres2
      injection hres2 with e1 e2 e3 e4 e5 e6
      subst e1
      subst e2
      subst e3
      subst e4
      subst e5
      subst e6
      exact ⟨j2, t, hj, rfl, List.mem_range.mp hmem, hns, rfl, rfl, hne, rfl,
        rfl⟩
    | ok ba =>
      rw [hd] at hres
      dsimp only [] at hres
      cases hres

/-- C5: add-axis concat produces input 0's shape with a new dimension of
extent `N` (the input count) inserted at the canonical axis and an axis-extent
record of all ones; concretely, concatenating two `[2,3]` inputs along axis 1
with add-axis yields shape `[2,2,3]` and record `[1,1]`, and an add-axis
split driven by that record reproduces the two original tensors. -/
theorem claim_C5_add_axis_concat :
    (∀ (cfg : ConcatConfig) (z : Tensor) (rest : List Tensor) (y0 s0 : Tensor)
        (ax : Nat),
      cfg.addAxis = true →
      canonical_axis_index_ cfg.axis (z.ndim + 1) = .ok ax →
      (∀ t ∈ rest, t.dtype = z.dtype) →
      (∀ t ∈ rest, t.dims = z.dims) →
      ∃ Y S, ConcatOp.run cfg z rest y0 s0 = (.ok (), Y, S) ∧
        Y.dims = z.dims.insertIdx ax (1 + rest.length) ∧
        S.dims = [1 + rest.length] ∧
        S.data = List.replicate (1 + rest.length) 1) ∧
    (ConcatOp.run ⟨1, true⟩ ⟨[2, 3], [0, 1, 2, 3, 4, 5], 0⟩
        [⟨[2, 3], [6, 7, 8, 9, 10, 11], 0⟩] ⟨[], [], 0⟩ ⟨[], [], 0⟩ =
      (.ok (), ⟨[2, 2, 3], [0, 1, 2, 6, 7, 8, 3, 4, 5, 9, 10, 11], 0⟩,
        ⟨[2], [1, 1], 0⟩) ∧
      SplitOp.run ⟨1, true, []⟩
        ⟨[2, 2, 3], [0, 1, 2, 6, 7, 8, 3, 4, 5, 9, 10, 11], 0⟩
        (some ⟨[2], [1, 1], 0⟩) 2 =
      .ok [⟨[2, 3], [0, 1, 2, 3, 4, 5], 0⟩,
        ⟨[2, 3], [6, 7, 8, 9, 10, 11], 0⟩]) := by
  constructor
  · intro cfg z rest y0 s0 ax haddX hax hty hdims
    have hax2 : canonical_axis_index_ cfg.axis
        (z.ndim + (if cfg.addAxis then 1 else 0)) = .ok ax := by
      rw [haddX]
      exact hax
    have hcompat : ∀ (i : Nat) (t : Tensor), t ∈ rest →
        (i = ax ∧ ¬ cfg.addAxis) ∨ t.dim32 i = z.dim32 i := by
      intro i t ht
      right
      show t.dims.getD i 0 = z.dims.getD i 0
      rw [hdims t ht]
    have h := ConcatOp.run_ok cfg z rest y0 s0 ax hax2 hty hcompat
    refine ⟨_, _, h, ?_, rfl, ?_⟩
    · show concatOutputDims cfg.addAxis ax z rest = _
      unfold concatOutputDims
      rw [haddX, if_pos rfl, adimSumT_true]
      congr 1
      simp only [List.length_cons]
      omega
    · show ((z :: rest).map (adimT cfg.addAxis ax)).map Int.ofNat = _
      rw [haddX, map_adimT_true_ofNat]
      congr 1
      simp only [List.length_cons]
      omega
  · constructor
    · rfl
    · rfl

/-- C6: `SplitByLengthsOp` fails with `SizeMismatch` unless the length count
is a multiple of the output count; output `i`'s axis extent is the sum of its
group of `lengths.count / outputCount` consecutive entries, and the run fails
with `ShapeSumMismatch` unless the total equals the input's axis extent. -/
theorem claim_C6_split_by_lengths (axis : Int) (X lens : Tensor) (N : Nat) :
    (lens.data.length % N ≠ 0 →
      SplitByLengthsOp.run axis X lens N = .error .sizeMismatch) ∧
    (∀ ax : Nat, lens.data.length % N = 0 →
      canonical_axis_index_ axis X.ndim = .ok ax →
      ((lens.data.sum ≠ (X.dim32 ax : Int) →
        SplitByLengthsOp.run axis X lens N = .error .shapeSumMismatch) ∧
       (lens.data.sum = (X.dim32 ax : Int) →
        ∃ outs, SplitByLengthsOp.run axis X lens N = .ok outs ∧
          outs.length = N ∧
          ∀ k, k < N → ∃ t, outs[k]? = some t ∧
            t.dim32 ax =
              (((lens.data.drop (lens.data.length / N * k)).take
                (lens.data.length / N)).sum).toNat))) := by
  constructor
  · intro hmod
    unfold SplitByLengthsOp.run
    rw [if_pos hmod]
  · intro ax hmod hax
    have hlt : ax < X.ndim := canonical_axis_index_ok_lt _ _ _ hax
    constructor
    · intro hsum
      unfold SplitByLengthsOp.run
      rw [if_neg (fun hh => hh hmod), hax]
      dsimp only []
      rw [if_neg (by omega), if_pos hsum]
    · intro hsum
      unfold SplitByLengthsOp.run
      rw [if_neg (fun hh => hh hmod), hax]
      dsimp only []
      rw [if_neg (by omega), if_neg (fun hh => hh hsum)]
      refine ⟨_, rfl, length_splitByLenOutputs X ax _ _ lens.data _ N 0 0, ?_⟩
      intro k hk
      obtain ⟨t, ht, hd⟩ := getElem?_splitByLenOutputs_dims X ax
        ((X.dims.take ax).prod) ((X.dims.drop (ax + 1)).prod) lens.data
        (lens.data.length / N) N 0 0 k hk
      rw [Nat.zero_add] at hd
      refine ⟨t, ht, ?_⟩
      show t.dims.getD ax 0 = _
      rw [hd, getD_set_self_of_lt _ _ _ hlt]

/-- C7: with no explicit sizes and no ratio tensor, the split run fails with
`IndivisibleSplit` whenever the input's axis extent is not divisible by the
output count, and otherwise (in non-add-axis mode) every output receives axis
extent `extent / outputCount`. -/
theorem claim_C7_equal_split (cfg : SplitConfig) (X : Tensor) (N : Nat)
    (ax : Nat)
    (hsplit : cfg.split = [])
    (hax : canonical_axis_index_ cfg.axis X.ndim = .ok ax) :
    (X.dim32 ax % N ≠ 0 →
      SplitOp.run cfg X none N = .error .indivisibleSplit) ∧
    (cfg.addAxis = false → X.dim32 ax % N = 0 →
      ∃ outs, SplitOp.run cfg X none N = .ok outs ∧ outs.length = N ∧
        ∀ t ∈ outs, t.dim32 ax = X.dim32 ax / N) := by
  have hlt : ax < X.ndim := canonical_axis_index_ok_lt _ _ _ hax
  constructor
  · intro hmod
    unfold SplitOp.run
    rw [hax]
    dsimp only []
    rw [if_neg (by omega), if_pos (by rw [hsplit]; rfl), if_pos hmod]
  · intro haddX hmod
    unfold SplitOp.run
    rw [hax]
    dsimp only []
    rw [if_neg (by omega), if_pos (by rw [hsplit]; rfl),
      if_neg (fun hh => hh hmod)]
    dsimp only []
    have hsum : (if cfg.addAxis then (N : Int)
        else (List.replicate N ((X.dim32 ax / N : Nat) : Int)).sum) =
        (X.dim32 ax : Int) := by
      rw [haddX, if_neg (by simp), List.sum_replicate, nsmul_eq_mul,
        ← Nat.cast_mul]
      congr 1
      exact Nat.mul_div_cancel' (Nat.dvd_of_mod_eq_zero hmod)
    rw [if_neg (fun hh => hh hsum)]
    refine ⟨_, rfl, ?_, ?_⟩
    · rw [length_splitOutputs, List.length_replicate]
    · intro t ht
      obtain ⟨a, ha, hd⟩ := mem_splitOutputs_dims X ax ((X.dims.take ax).prod)
        ((X.dims.drop (ax + 1)).prod) cfg.addAxis _ 0 t ht
      rw [haddX, if_neg (by simp)] at hd
      have haval : a = ((X.dim32 ax / N : Nat) : Int) :=
        List.eq_of_mem_replicate ha
      show t.dims.getD ax 0 = _
      rw [hd, getD_set_self_of_lt _ _ _ hlt, haval, Int.toNat_natCast]

/-- C10: in add-axis mode the split run ignores the values of any supplied
partition spec, in both of its forms — a ratio-tensor input or explicit
split sizes: in each form the run succeeds exactly when the output count
equals the input's axis extent (regardless of what the entries sum to),
every output's shape is the input's shape with the canonical axis removed,
and the whole result depends only on the spec's element count, not its
values. -/
theorem claim_C10_add_axis_ignores_spec (cfg : SplitConfig) (X : Tensor)
    (N : Nat) (ax : Nat)
    (haddX : cfg.addAxis = true)
    (hax : canonical_axis_index_ cfg.axis X.ndim = .ok ax) :
    (∀ st : Tensor, cfg.split = [] → st.data.length = N →
      ((N = X.dim32 ax →
        ∃ outs, SplitOp.run cfg X (some st) N = .ok outs ∧
          ∀ t ∈ outs, t.dims = X.dims.eraseIdx ax) ∧
       (N ≠ X.dim32 ax →
        SplitOp.run cfg X (some st) N = .error .shapeSumMismatch) ∧
       (∀ st2 : Tensor, st2.data.length = N →
         SplitOp.run cfg X (some st) N = SplitOp.run cfg X (some st2) N))) ∧
    (cfg.split ≠ [] → cfg.split.length = N →
      ((N = X.dim32 ax →
        ∃ outs, SplitOp.run cfg X none N = .ok outs ∧
          ∀ t ∈ outs, t.dims = X.dims.eraseIdx ax) ∧
       (N ≠ X.dim32 ax →
        SplitOp.run cfg X none N = .error .shapeSumMismatch) ∧
       (∀ l2 : List Int, l2 ≠ [] → l2.length = N →
         SplitOp.run cfg X none N =
           SplitOp.run ⟨cfg.axis, cfg.addAxis, l2⟩ X none N))) := by
  obtain ⟨caxis, caddX, csplit⟩ := cfg
  dsimp only [] at haddX hax ⊢
  subst haddX
  have hlt : ax < X.ndim := canonical_axis_index_ok_lt _ _ _ hax
  have hredSome : ∀ (u : Tensor), u.data.length = N →
      SplitOp.run ⟨caxis, true, []⟩ X (some u) N =
        (if (N : Int) ≠ (X.dim32 ax : Int) then .error .shapeSumMismatch
         else .ok (splitOutputs X ax ((X.dims.take ax).prod)
           ((X.dims.drop (ax + 1)).prod) true u.data 0)) := by
    intro u hu
    unfold SplitOp.run
    dsimp only []
    rw [hax]
    dsimp only []
    rw [if_neg (by omega), if_neg (by simp), if_neg (fun hh => hh hu)]
    dsimp only []
    rw [if_pos rfl]
  have hredNone : ∀ (l : List Int), l ≠ [] → l.length = N →
      SplitOp.run ⟨caxis, true, l⟩ X none N =
        (if (N : Int) ≠ (X.dim32 ax : Int) then .error .shapeSumMismatch
         else .ok (splitOutputs X ax ((X.dims.take ax).prod)
           ((X.dims.drop (ax + 1)).prod) true l 0)) := by
    intro l hne hl
    unfold SplitOp.run
    dsimp only []
    rw [hax]
    dsimp only []
    rw [if_neg (by omega),
      if_neg (fun h => hne (List.length_eq_zero.mp h)),
      if_neg (fun hh => hh hl)]
    dsimp only []
    rw [if_pos rfl]
  constructor
  · intro st hsplit hlen
    subst hsplit
    refine ⟨?_, ?_, ?_⟩
    · intro hN
      rw [hredSome st hlen, if_neg (by
        intro hh
        exact hh (by exact_mod_cast hN))]
      refine ⟨_, rfl, ?_⟩
      intro t ht
      obtain ⟨a, ha, hd⟩ := mem_splitOutputs_dims X ax ((X.dims.take ax).prod)
        ((X.dims.drop (ax + 1)).prod) true st.data 0 t ht
      rw [if_pos rfl] at hd
      exact hd
    · intro hN
      rw [hredSome st hlen, if_pos (by
        intro hh
        exact hN (by exact_mod_cast hh))]
    · intro st2 hlen2
      rw [hredSome st hlen, hredSome st2 hlen2]
      by_cases hc : (N : Int) ≠ (X.dim32 ax : Int)
      · rw [if_pos hc, if_pos hc]
      · rw [if_neg hc, if_neg hc]
        congr 1
        exact splitOutputs_true_congr X ax _ _ st.data st2.data 0
          (by rw [hlen, hlen2])
  · intro hne hlenN
    refine ⟨?_, ?_, ?_⟩
    · intro hN
      rw [hredNone csplit hne hlenN, if_neg (by
        intro hh
        exact hh (by exact_mod_cast hN))]
      refine ⟨_, rfl, ?_⟩
      intro t ht
      obtain ⟨a, ha, hd⟩ := mem_splitOutputs_dims X ax ((X.dims.take ax).prod)
        ((X.dims.drop (ax + 1)).prod) true csplit 0 t ht
      rw [if_pos rfl] at hd
      exact hd
    · intro hN
      rw [hredNone csplit hne hlenN, if_pos (by
        intro hh
        exact hN (by exact_mod_cast hh))]
    · intro l2 hne2 hlen2
      rw [hredNone csplit hne hlenN, hredNone l2 hne2 hlen2]
      by_cases hc : (N : Int) ≠ (X.dim32 ax : Int)
      · rw [if_pos hc, if_pos hc]
      · rw [if_neg hc, if_neg hc]
        congr 1
        exact splitOutputs_true_congr X ax _ _ csplit l2 0
          (by rw [hlenN, hlen2])

/-! ### Concrete witnesses -/

/-- Witness for C1: splitting a `[2,3]` tensor along axis 1 into extents
`[1,2]` and concatenating the two outputs reproduces it. -/
theorem claim_C1_witness :
    ∃ S, ConcatOp.run ⟨1, false⟩ ⟨[2, 1], [0, 3], 7⟩
      [⟨[2, 2], [1, 2, 4, 5], 7⟩] ⟨[], [], 0⟩ ⟨[], [], 0⟩ =
      (.ok (), (⟨[2, 3], [0, 1, 2, 3, 4, 5], 7⟩ : Tensor), S) :=
  claim_C1_split_concat_roundtrip ⟨1, false, [1, 2]⟩
    ⟨[2, 3], [0, 1, 2, 3, 4, 5], 7⟩ none 2 ⟨[], [], 0⟩ ⟨[], [], 0⟩
    ⟨[2, 1], [0, 3], 7⟩ [⟨[2, 2], [1, 2, 4, 5], 7⟩]
    (by decide) (by decide) (by intro st h; cases h) (by rfl)

/-- Witness for C3: at the failing `TypeMismatch` call, the concatenated
output equals its prior state and the record is the resized tensor. -/
theorem claim_C3_witness :
    (ConcatOp.run ⟨0, false⟩ ⟨[2], [0, 0], 0⟩ [⟨[2], [0, 0], 1⟩] ⟨[], [], 0⟩
      ⟨[5], [7], 0⟩).2.1 = (⟨[], [], 0⟩ : Tensor) ∧
    (ConcatOp.run ⟨0, false⟩ ⟨[2], [0, 0], 0⟩ [⟨[2], [0, 0], 1⟩] ⟨[], [], 0⟩
      ⟨[5], [7], 0⟩).2.2 = ⟨[2], resizeBuffer [7] 2, int32Dtype⟩ :=
  claim_C3_failure_output_states ⟨0, false⟩ ⟨[2], [0, 0], 0⟩
    [⟨[2], [0, 0], 1⟩] ⟨[], [], 0⟩ ⟨[5], [7], 0⟩ (.typeMismatch 1) (by rfl)

/-- Witness for C4: inputs `[2,3]` and `[2,4]` concatenated along axis 0 fail
with a `ShapeMismatch` error. -/
theorem claim_C4_witness :
    ∃ e, (ConcatOp.run ⟨0, false⟩ ⟨[2, 3], [0, 0, 0, 0, 0, 0], 0⟩
      [⟨[2, 4], [0, 0, 0, 0, 0, 0, 0, 0], 0⟩] ⟨[], [], 0⟩ ⟨[], [], 0⟩).1 =
      .error e ∧ ∃ d dj i j s1 s2, e = .shapeMismatch d dj i j s1 s2 :=
  (claim_C4_shape_mismatch ⟨0, false⟩ ⟨[2, 3], [0, 0, 0, 0, 0, 0], 0⟩
    [⟨[2, 4], [0, 0, 0, 0, 0, 0, 0, 0], 0⟩] ⟨[], [], 0⟩ ⟨[], [], 0⟩ 0
    (by rfl) (by decide)).1.mpr
    ⟨1, ⟨[2, 4], [0, 0, 0, 0, 0, 0, 0, 0], 0⟩, by decide, by decide,
      by decide, by decide⟩

/-- Witness for C5 (general part): the concrete add-axis concat of two
`[2,3]` tensors along axis 1. -/
theorem claim_C5_witness :
    ∃ Y S, ConcatOp.run ⟨1, true⟩ ⟨[2, 3], [0, 1, 2, 3, 4, 5], 0⟩
      [⟨[2, 3], [6, 7, 8, 9, 10, 11], 0⟩] ⟨[], [], 0⟩ ⟨[], [], 0⟩ =
      (.ok (), Y, S) ∧ Y.dims = ([2, 3] : List Nat).insertIdx 1 2 ∧
      S.dims = [2] ∧ S.data = List.replicate 2 1 :=
  claim_C5_add_axis_concat.1 ⟨1, true⟩ ⟨[2, 3], [0, 1, 2, 3, 4, 5], 0⟩
    [⟨[2, 3], [6, 7, 8, 9, 10, 11], 0⟩] ⟨[], [], 0⟩ ⟨[], [], 0⟩ 1
    rfl (by rfl) (by decide) (by decide)

/-- Witness for C6: lengths `[1,1,2,2]` with 2 outputs and input axis extent
6 give group extents 2 and 4. -/
theorem claim_C6_witness :
    ∃ outs, SplitByLengthsOp.run 0 ⟨[6], [0, 1, 2, 3, 4, 5], 0⟩
      ⟨[4], [1, 1, 2, 2], 0⟩ 2 = .ok outs ∧ outs.length = 2 ∧
      ∀ k, k < 2 → ∃ t, outs[k]? = some t ∧
        t.dim32 0 = ((([1, 1, 2, 2] : List Int).drop (4 / 2 * k)).take
          (4 / 2)).sum.toNat :=
  ((claim_C6_split_by_lengths 0 ⟨[6], [0, 1, 2, 3, 4, 5], 0⟩
    ⟨[4], [1, 1, 2, 2], 0⟩ 2).2 0 (by decide) (by rfl)).2 (by decide)

/-- Witness for C7: shape `[5,4]`, axis 0, 3 outputs fails with
`IndivisibleSplit`; shape `[6,4]` splits into three outputs of extent 2. -/
theorem claim_C7_witness :
    SplitOp.run ⟨0, false, []⟩ ⟨[5, 4], List.replicate 20 0, 0⟩ none 3 =
      .error .indivisibleSplit ∧
    ∃ outs, SplitOp.run ⟨0, false, []⟩ ⟨[6, 4], List.replicate 24 0, 0⟩
      none 3 = .ok outs ∧ outs.length = 3 ∧ ∀ t ∈ outs, t.dim32 0 = 2 :=
  ⟨(claim_C7_equal_split ⟨0, false, []⟩ ⟨[5, 4], List.replicate 20 0, 0⟩ 3 0
      rfl (by rfl)).1 (by decide),
   (claim_C7_equal_split ⟨0, false, []⟩ ⟨[6, 4], List.replicate 24 0, 0⟩ 3 0
      rfl (by rfl)).2 rfl (by decide)⟩

/-- Witness for C8: resolving `-1` against rank 4 gives `4 + (-1) = 3`, and
the range-checked resolver agrees on `-1` and `rank - 1`. -/
theorem claim_C8_witness :
    resolveAxis 4 (-1) = ((4 : Nat) : Int) + (-1) ∧
    canonical_axis_index_ (-1) 4 =
      canonical_axis_index_ (((4 : Nat) : Int) - 1) 4 :=
  ⟨(claim_C8_negative_axis_resolution.1 4 (-1)).1 (by decide),
   claim_C8_negative_axis_resolution.2 4⟩

/-- Witness for C9: axis 1 together with order NCHW fails construction of all
three operators, and explicit sizes plus a ratio tensor fail the split run. -/
theorem claim_C9_witness :
    (SplitOp.construct ⟨some 1, some "NCHW", none, []⟩ =
      .error .conflictingConfiguration ∧
     SplitByLengthsOp.construct ⟨some 1, some "NCHW", none, []⟩ =
      .error .conflictingConfiguration ∧
     ConcatOp.construct ⟨some 1, some "NCHW", none, []⟩ =
      .error .conflictingConfiguration) ∧
    SplitOp.run ⟨0, false, [1, 1]⟩ ⟨[2], [0, 0], 0⟩ (some ⟨[2], [1, 1], 0⟩)
      2 = .error .conflictingConfiguration :=
  ⟨claim_C9_conflicting_configuration.1 ⟨some 1, some "NCHW", none, []⟩
     (by decide) (by decide),
   claim_C9_conflicting_configuration.2 ⟨0, false, [1, 1]⟩ ⟨[2], [0, 0], 0⟩
     ⟨[2], [1, 1], 0⟩ 2 0 (by rfl) (by decide)⟩

/-- Witness for C10: add-axis splits whose spec entries `[5,9]` do not sum
to the axis extent 2 still succeed — both with the entries given as a ratio
tensor and with the entries given as explicit split sizes — and every output
has the input's shape with the axis removed. -/
theorem claim_C10_witness :
    (∃ outs, SplitOp.run ⟨0, true, []⟩ ⟨[2, 3], [0, 1, 2, 3, 4, 5], 0⟩
      (some ⟨[2], [5, 9], 0⟩) 2 = .ok outs ∧
      ∀ t ∈ outs, t.dims = ([2, 3] : List Nat).eraseIdx 0) ∧
    (∃ outs, SplitOp.run ⟨0, true, [5, 9]⟩ ⟨[2, 3], [0, 1, 2, 3, 4, 5], 0⟩
      none 2 = .ok outs ∧
      ∀ t ∈ outs, t.dims = ([2, 3] : List Nat).eraseIdx 0) :=
  ⟨((claim_C10_add_axis_ignores_spec ⟨0, true, []⟩
      ⟨[2, 3], [0, 1, 2, 3, 4, 5], 0⟩ 2 0 rfl (by rfl)).1
      ⟨[2], [5, 9], 0⟩ rfl (by decide)).1 (by decide),
   ((claim_C10_add_axis_ignores_spec ⟨0, true, [5, 9]⟩
      ⟨[2, 3], [0, 1, 2, 3, 4, 5], 0⟩ 2 0 rfl (by rfl)).2
      (by decide) (by decide)).1 (by decide)⟩

end ConcatSplit
